import Mathlib

/-!
Verification of the desktop-entry codec and store of the menuentry
repository (src/menuentry/desktop_file.py and the delete action of
src/menuentry/app.py).

Strings are modelled as lists of characters (Python str semantics for
the operations the code uses: strip, splitlines, split, partition,
lower, substring membership).  The key/value dictionary built while
parsing is modelled as a function from keys to optional values, with
later assignments overwriting earlier ones, exactly as a Python dict.
Filesystem state and directory listings, which the Python code reads
through the OS, are passed as explicit parameters.
-/

/-- Characters of a Lean string literal, used to write concrete
Python strings in this development. -/
def cs (x : String) : List Char := x.data

/-- Python `str.isspace` on a single character: the whitespace set used
by `str.strip` and `str.split` (ASCII whitespace, the C1 separators
0x1C-0x1F, NEL, NBSP and the Unicode space/line separators). -/
def isPySpace (c : Char) : Bool :=
  let n := c.toNat
  n == 0x20 || (0x9 ≤ n && n ≤ 0xD) || (0x1C ≤ n && n ≤ 0x1F) ||
  n == 0x85 || n == 0xA0 || n == 0x1680 || (0x2000 ≤ n && n ≤ 0x200A) ||
  n == 0x2028 || n == 0x2029 || n == 0x202F || n == 0x205F || n == 0x3000

/-- The line boundaries recognised by Python `str.splitlines`
(besides the two-character sequence CR LF, handled separately). -/
def isLineTerm (c : Char) : Bool :=
  let n := c.toNat
  (0xA ≤ n && n ≤ 0xD) || (0x1C ≤ n && n ≤ 0x1E) ||
  n == 0x85 || n == 0x2028 || n == 0x2029

/-- Python `str.startswith`: the first argument read as a leading
segment of the second. -/
def begins : List Char → List Char → Bool
  | [], _ => true
  | _ :: _, [] => false
  | a :: as, b :: bs => a == b && begins as bs

/-- Python substring membership `needle in hay`. -/
def hasSub : List Char → List Char → Bool
  | n, [] => n.isEmpty
  | n, c :: rest => begins n (c :: rest) || hasSub n rest

/-- Python `str.endswith`. -/
def endsW (suf l : List Char) : Bool := begins suf.reverse l.reverse

/-- Python `str.lstrip()`. -/
def lstripPy (l : List Char) : List Char := l.dropWhile isPySpace

/-- Python `str.strip()`: drop leading and trailing whitespace. -/
def pyStrip (l : List Char) : List Char :=
  ((lstripPy l).reverse.dropWhile isPySpace).reverse

/-- Worker for `pySplitlines`; `acc` holds the current line reversed,
and the flag records that the previous character was a carriage return
that already ended a line, so that a following line feed is consumed
silently (the Python CR LF rule). -/
def pySplitlinesAux : List Char → Bool → List Char → List (List Char)
  | [], _, acc => if acc.isEmpty then [] else [acc.reverse]
  | c :: rest, afterCr, acc =>
    if afterCr && c == '\n' then pySplitlinesAux rest false acc
    else if isLineTerm c then
      acc.reverse :: pySplitlinesAux rest (c == '\r') []
    else pySplitlinesAux rest false (c :: acc)

/-- Python `str.splitlines()`. -/
def pySplitlines (l : List Char) : List (List Char) :=
  pySplitlinesAux l false []

/-- Python `str.partition("=")` restricted to the two interesting
components: the part before the first `=` and the part after it.
The caller only uses it on lines already known to contain `=`. -/
def pyPartitionEq : List Char → List Char × List Char
  | [] => ([], [])
  | c :: rest =>
    if c == '=' then ([], rest)
    else
      let p := pyPartitionEq rest
      (c :: p.1, p.2)

/-- Worker for `pySplitWs`; `acc` holds the current token reversed. -/
def pySplitWsAux : List Char → List Char → List (List Char)
  | [], acc => if acc.isEmpty then [] else [acc.reverse]
  | c :: rest, acc =>
    if isPySpace c then
      (if acc.isEmpty then pySplitWsAux rest []
       else acc.reverse :: pySplitWsAux rest [])
    else pySplitWsAux rest (c :: acc)

/-- Python `str.split()` with no argument: split on runs of whitespace,
discarding empty pieces. -/
def pySplitWs (l : List Char) : List (List Char) := pySplitWsAux l []

/-- Python `str.split(sep)` for a one-character separator: empty pieces
are kept, and the empty string yields one empty piece. -/
def pySplitOn (sep : Char) : List Char → List (List Char)
  | [] => [[]]
  | c :: rest =>
    if c == sep then [] :: pySplitOn sep rest
    else
      match pySplitOn sep rest with
      | [] => [[c]]
      | t :: ts => (c :: t) :: ts

/-- Python `sep.join(pieces)`. -/
def joinWith (sep : List Char) : List (List Char) → List Char
  | [] => []
  | [t] => t
  | t :: ts => t ++ sep ++ joinWith sep ts

/-- Python `str.lower()` (modelled characterwise; all characters the
program compares after lowering are ASCII). -/
def pyLower (l : List Char) : List Char := l.map Char.toLower

/-- Python `str.replace(old, new)` for one-character patterns. -/
def pyReplaceChar (old new : Char) (l : List Char) : List Char :=
  l.map (fun c => if c == old then new else c)

/-- The key/value store built while scanning a desktop file: a Python
dict from key strings to value strings. -/
def Dict : Type := List Char → Option (List Char)

/-- The empty dict. -/
def emptyD : Dict := fun _ => none

/-- Python dict assignment `d[k] = v` (overwrites). -/
def upd (d : Dict) (k v : List Char) : Dict :=
  fun q => if q = k then some v else d q

/-- The in-memory desktop entry record (`DesktopEntry` dataclass). -/
structure DesktopEntry where
  name : List Char
  exec : List Char := []
  entry_type : List Char := cs "Application"
  comment : List Char := []
  icon : List Char := []
  path : List Char := []
  terminal : Bool := false
  categories : List Char := []
  keywords : List Char := []
  url : List Char := []
  mime_type : List Char := []
  hidden : Bool := false
  env_vars : List Char := []
  startup_wm_class : List Char := []
  file_path : Option (List Char) := none
deriving DecidableEq

/-- One step of the line scan in `DesktopEntry.from_string`: the state
is the `in_desktop_entry` flag together with the `data` dict. -/
def scanStep (st : Bool × Dict) (raw : List Char) : Bool × Dict :=
  let line := pyStrip raw
  if line.isEmpty || begins (cs "#") line then st
  else if begins (cs "[") line && line.getLast? == some ']' then
    (line = cs "[Desktop Entry]", st.2)
  else if st.1 && line.contains '=' then
    let p := pyPartitionEq line
    (st.1, upd st.2 (pyStrip p.1) (pyStrip p.2))
  else st

/-- The full line scan of `DesktopEntry.from_string`: fold the step
over `content.splitlines()` starting outside any section. -/
def parseState (content : List Char) : Bool × Dict :=
  (pySplitlines content).foldl scanStep (false, emptyD)

/-- The `data` dict produced by scanning `content`. -/
def parsedDict (content : List Char) : Dict := (parseState content).2

/-- The index the `cmd_start_idx` loop computes: position of the first
whitespace token without an `=`, or `none` when every token has one
(in which case the loop leaves the index at its initial value 0). -/
def firstNoEq : List (List Char) → Option Nat
  | [] => none
  | p :: rest =>
    if p.contains '=' then (firstNoEq rest).map (fun i => i + 1)
    else some 0

/-- The env-prefix stripping applied to the raw exec command when
`X-Env-Vars` is present: drop the leading whitespace-separated tokens
of `exec[4:]` up to the first token without an `=`, and re-join the
remaining tokens with single spaces. -/
def envUnwrap (ev ec : List Char) : List Char :=
  if !ev.isEmpty && begins (cs "env ") ec then
    let parts := pySplitWs (ec.drop 4)
    let idx := (firstNoEq parts).getD 0
    joinWith (cs " ") (parts.drop idx)
  else ec

/-- `DesktopEntry.from_string`: parse desktop file content. -/
def DesktopEntry.from_string (content : List Char) (fp : Option (List Char)) :
    DesktopEntry :=
  let data := parsedDict content
  let ev := (data (cs "X-Env-Vars")).getD []
  { name := (data (cs "Name")).getD (cs "Unnamed")
    exec := envUnwrap ev ((data (cs "Exec")).getD [])
    entry_type := (data (cs "Type")).getD (cs "Application")
    comment := (data (cs "Comment")).getD []
    icon := (data (cs "Icon")).getD []
    path := (data (cs "Path")).getD []
    terminal := pyLower ((data (cs "Terminal")).getD []) = cs "true"
    categories := (data (cs "Categories")).getD []
    keywords := (data (cs "Keywords")).getD []
    url := (data (cs "URL")).getD []
    mime_type := (data (cs "MimeType")).getD []
    hidden := pyLower ((data (cs "Hidden")).getD []) = cs "true"
    env_vars := ev
    startup_wm_class := (data (cs "StartupWMClass")).getD []
    file_path := fp }

/-- The `env_parts` list computed while serializing: semicolon pieces of
`env_vars`, stripped, with empty pieces dropped. -/
def envParts (ev : List Char) : List (List Char) :=
  ((pySplitOn ';' ev).map pyStrip).filter (fun t => !t.isEmpty)

/-- The list of lines `DesktopEntry.to_string` appends, in order. -/
def DesktopEntry.entryLines (e : DesktopEntry) : List (List Char) :=
  [cs "[Desktop Entry]"] ++
  [cs "Type=" ++ e.entry_type] ++
  [cs "Name=" ++ e.name] ++
  (if !e.comment.isEmpty then [cs "Comment=" ++ e.comment] else []) ++
  (if !e.icon.isEmpty then [cs "Icon=" ++ e.icon] else []) ++
  (if !e.exec.isEmpty then
    (if !e.env_vars.isEmpty then
      (if !(envParts e.env_vars).isEmpty then
        [cs "Exec=env " ++ joinWith (cs " ") (envParts e.env_vars) ++
          cs " " ++ e.exec]
       else [cs "Exec=" ++ e.exec])
     else [cs "Exec=" ++ e.exec])
   else []) ++
  (if !e.path.isEmpty then [cs "Path=" ++ e.path] else []) ++
  [cs "Terminal=" ++ (if e.terminal then cs "true" else cs "false")] ++
  (if !e.categories.isEmpty then [cs "Categories=" ++ e.categories] else []) ++
  (if !e.keywords.isEmpty then [cs "Keywords=" ++ e.keywords] else []) ++
  (if !e.url.isEmpty then [cs "URL=" ++ e.url] else []) ++
  (if !e.mime_type.isEmpty then [cs "MimeType=" ++ e.mime_type] else []) ++
  (if !e.startup_wm_class.isEmpty then
    [cs "StartupWMClass=" ++ e.startup_wm_class] else []) ++
  [cs "Hidden=" ++ (if e.hidden then cs "true" else cs "false")] ++
  (if !e.env_vars.isEmpty then [cs "X-Env-Vars=" ++ e.env_vars] else [])

/-- `DesktopEntry.to_string`: `"\n".join(lines) + "\n"`. -/
def DesktopEntry.to_string (e : DesktopEntry) : List Char :=
  joinWith (cs "\n") e.entryLines ++ cs "\n"

/-- `get_user_applications_dir`: `Path.home() / ".local" / "share" /
"applications"`, with the home directory passed explicitly. -/
def get_user_applications_dir (home : List Char) : List Char :=
  home ++ cs "/.local/share/applications"

/-- `get_system_applications_dir`. -/
def get_system_applications_dir : List Char := cs "/usr/share/applications"

/-- `dir / name` on paths. -/
def joinPath (dir n : List Char) : List Char := dir ++ cs "/" ++ n

/-- `DesktopEntry.save`: choose the target path (explicit argument,
else a non-empty stored `file_path`, else a filename derived from the
name under the user applications directory), write the serialized text
there, and record the written path on the entry.  The filesystem is a
map from paths to file contents; directory creation has no separate
effect in this model.  Returns the written path, the updated entry and
the updated filesystem. -/
def DesktopEntry.save (e : DesktopEntry) (pathArg : Option (List Char))
    (home : List Char) (fs : Dict) : List Char × DesktopEntry × Dict :=
  let genPath := joinPath (get_user_applications_dir home)
    (pyReplaceChar ' ' '-' (pyLower e.name) ++ cs ".desktop")
  let path :=
    match pathArg with
    | some p => p
    | none =>
      match e.file_path with
      | some fp => if fp.isEmpty then genPath else fp
      | none => genPath
  (path, { e with file_path := some path }, upd fs path e.to_string)

/-- Lexicographic comparison of Python strings by code point
(the order `sorted` uses on the `str` sort keys). -/
def lexLe : List Char → List Char → Bool
  | [], _ => true
  | _ :: _, [] => false
  | a :: as, b :: bs =>
    if a.toNat < b.toNat then true
    else if b.toNat < a.toNat then false
    else lexLe as bs

/-- `Path.name`: the part of the path after the last slash. -/
def baseName (p : List Char) : List Char :=
  (p.reverse.takeWhile (fun c => !(c == '/'))).reverse

/-- The sort key of `get_all_desktop_files`:
`x[0].name.lower()`. -/
def sortKey (x : List Char × Bool) : List Char := pyLower (baseName x.1)

/-- Stable insertion of one element in front of the first element whose
key is strictly greater (so an element keeps its place relative to
earlier elements with an equal key, as Python's stable sort does). -/
def insOne (x : List Char × Bool) :
    List (List Char × Bool) → List (List Char × Bool)
  | [] => [x]
  | y :: ys =>
    if lexLe (sortKey y) (sortKey x) then y :: insOne x ys
    else x :: y :: ys

/-- The stable sort `sorted(files, key=lambda x: x[0].name.lower())`. -/
def sortFiles (l : List (List Char × Bool)) : List (List Char × Bool) :=
  l.foldl (fun acc x => insOne x acc) []

/-- `get_all_desktop_files`: the `*.desktop` entries of the user
directory (flag true) followed by those of the system directory
(flag false), sorted by lowercased filename.  The existence of each
directory and its listing, which the Python code obtains from the OS,
are passed explicitly; a missing directory contributes nothing. -/
def get_all_desktop_files (userEx : Bool) (userNames : List (List Char))
    (sysEx : Bool) (sysNames : List (List Char)) (home : List Char) :
    List (List Char × Bool) :=
  sortFiles
    ((if userEx then
        (userNames.filter (fun n => endsW (cs ".desktop") n)).map
          (fun n => (joinPath (get_user_applications_dir home) n, true))
      else []) ++
     (if sysEx then
        (sysNames.filter (fun n => endsW (cs ".desktop") n)).map
          (fun n => (joinPath get_system_applications_dir n, false))
      else []))

/-- The loop of `load_all_entries`: read and parse each enumerated
file, skipping any path the filesystem cannot produce contents for
(the `try`/`except` around `DesktopEntry.from_file`). -/
def load_entries_from (fs : Dict) :
    List (List Char × Bool) → List DesktopEntry
  | [] => []
  | pf :: rest =>
    match fs pf.1 with
    | some content =>
      DesktopEntry.from_string content (some pf.1) :: load_entries_from fs rest
    | none => load_entries_from fs rest

/-- `load_all_entries`: load every enumerated desktop file. -/
def load_all_entries (fs : Dict) (userEx : Bool)
    (userNames : List (List Char)) (sysEx : Bool)
    (sysNames : List (List Char)) (home : List Char) : List DesktopEntry :=
  load_entries_from fs (get_all_desktop_files userEx userNames sysEx sysNames home)

/-- The four ways `MenuEntryApp.action_delete` can end. -/
inductive DeleteOutcome
  | noSelection
  | notFound
  | notWritable
  | deleted
deriving DecidableEq

/-- `MenuEntryApp.action_delete`: refuse when no entry with a non-empty
path is selected, when the file no longer exists, or when the path does
not contain the substring `.local`; otherwise unlink the file.  The
filesystem is the list of existing paths. -/
def action_delete (files : List (List Char)) (current : Option DesktopEntry) :
    DeleteOutcome × List (List Char) :=
  match current with
  | none => (DeleteOutcome.noSelection, files)
  | some e =>
    match e.file_path with
    | none => (DeleteOutcome.noSelection, files)
    | some fp =>
      if fp.isEmpty then (DeleteOutcome.noSelection, files)
      else if !(files.contains fp) then (DeleteOutcome.notFound, files)
      else if !(hasSub (cs ".local") fp) then (DeleteOutcome.notWritable, files)
      else (DeleteOutcome.deleted, files.erase fp)

/-- Modelled from the spec's serialization contract: a field emitted
only when its value is non-empty. -/
def specOpt (k v : List Char) : List (List Char) :=
  if v.isEmpty then [] else [k ++ cs "=" ++ v]

/-- Modelled from the spec's serialization contract: the Exec value,
with the env wrapping heuristic applied when `env_vars` is non-empty. -/
def specExecValue (e : DesktopEntry) : List Char :=
  if e.exec.isEmpty then []
  else if e.env_vars.isEmpty then e.exec
  else if (envParts e.env_vars).isEmpty then e.exec
  else cs "env " ++ joinWith (cs " ") (envParts e.env_vars) ++ cs " " ++ e.exec

/-- Modelled from the spec's serialization contract: the deterministic
field order `[Desktop Entry]`, Type, Name, Comment?, Icon?, Exec?,
Path?, Terminal (always), Categories?, Keywords?, URL?, MimeType?,
StartupWMClass?, Hidden (always), X-Env-Vars?, where the fields marked
`?` are omitted when empty and the booleans are emitted as the literals
`true`/`false`. -/
def specSerializeLines (e : DesktopEntry) : List (List Char) :=
  [cs "[Desktop Entry]"] ++
  [cs "Type=" ++ e.entry_type] ++
  [cs "Name=" ++ e.name] ++
  specOpt (cs "Comment") e.comment ++
  specOpt (cs "Icon") e.icon ++
  specOpt (cs "Exec") (specExecValue e) ++
  specOpt (cs "Path") e.path ++
  [cs "Terminal=" ++ (if e.terminal then cs "true" else cs "false")] ++
  specOpt (cs "Categories") e.categories ++
  specOpt (cs "Keywords") e.keywords ++
  specOpt (cs "URL") e.url ++
  specOpt (cs "MimeType") e.mime_type ++
  specOpt (cs "StartupWMClass") e.startup_wm_class ++
  [cs "Hidden=" ++ (if e.hidden then cs "true" else cs "false")] ++
  specOpt (cs "X-Env-Vars") e.env_vars

/-- The first character, if any, is not Python whitespace. -/
def edgeOk : List Char → Bool
  | [] => true
  | c :: _ => !isPySpace c

/-- A value that survives the line codec unchanged: it contains no line
boundary and has no whitespace at either end. -/
def valOk (v : List Char) : Bool :=
  v.all (fun c => !isLineTerm c) && edgeOk v && edgeOk v.reverse

/-- A well-formed `env_vars` token: non-empty, free of whitespace, and
containing an `=`. -/
def tokenOk (t : List Char) : Bool :=
  !t.isEmpty && t.all (fun c => !isPySpace c) && t.contains '='

/-- Every semicolon piece of `env_vars` is a well-formed token. -/
def envVarsOk (ev : List Char) : Bool := (pySplitOn ';' ev).all tokenOk

/-- A command whose whitespace is normalized: splitting it on
whitespace and re-joining with single spaces reproduces it. -/
def execNormal (ec : List Char) : Bool :=
  joinWith (cs " ") (pySplitWs ec) == ec

/-- The first whitespace token of the command, if any, contains
no `=`. -/
def execHeadNoEq (ec : List Char) : Bool :=
  match pySplitWs ec with
  | [] => true
  | t :: _ => !t.contains '='

/-- The in-memory entries for which the serialized text parses back to
the same field values: every textual field is free of line boundaries
and edge whitespace, the command is whitespace-normalized, and when
`env_vars` is non-empty its tokens are well-formed `KEY=VALUE` pieces
while the command starts with a token that is not one. -/
@[reducible]
def wfEntry (e : DesktopEntry) : Prop :=
  valOk e.name = true ∧ valOk e.entry_type = true ∧ valOk e.comment = true ∧
  valOk e.icon = true ∧ valOk e.path = true ∧ valOk e.categories = true ∧
  valOk e.keywords = true ∧ valOk e.url = true ∧ valOk e.mime_type = true ∧
  valOk e.startup_wm_class = true ∧ valOk e.env_vars = true ∧
  execNormal e.exec = true ∧
  (e.env_vars ≠ [] →
    envVarsOk e.env_vars = true ∧ execHeadNoEq e.exec = true)

theorem isPySpace_of_isLineTerm (c : Char) (h : isLineTerm c = true) :
    isPySpace c = true := by
  simp only [isLineTerm, isPySpace] at h ⊢
  simp only [Bool.or_eq_true, Bool.and_eq_true, beq_iff_eq,
    decide_eq_true_eq] at h ⊢
  omega

theorem begins_iff (n : List Char) :
    ∀ l, begins n l = true ↔ ∃ t, l = n ++ t := by
  induction n with
  | nil => intro l; simp [begins]
  | cons a as ih =>
    intro l
    cases l with
    | nil => simp [begins]
    | cons b bs =>
      simp only [begins, Bool.and_eq_true, beq_iff_eq, ih bs,
        List.cons_append, List.cons.injEq]
      constructor
      · rintro ⟨rfl, t, rfl⟩; exact ⟨t, rfl, rfl⟩
      · rintro ⟨t, rfl, rfl⟩; exact ⟨rfl, t, rfl⟩

theorem begins_self (n t : List Char) : begins n (n ++ t) = true :=
  (begins_iff n _).mpr ⟨t, rfl⟩

theorem hasSub_nil_left : ∀ hay, hasSub [] hay = true := by
  intro hay
  induction hay with
  | nil => rfl
  | cons c rest ih => simp [hasSub, begins]

theorem hasSub_of_middle : ∀ a b t : List Char, hasSub b (a ++ b ++ t) = true := by
  intro a
  induction a with
  | nil =>
    intro b t
    cases b with
    | nil => simp [hasSub_nil_left]
    | cons x xs => simpa [hasSub] using Or.inl (begins_self (x :: xs) t)
  | cons c a' ih =>
    intro b t
    simpa [hasSub] using Or.inr (ih b t)

theorem hasSub_of_begins_append (x y l : List Char)
    (h : begins (x ++ y) l = true) : hasSub y l = true := by
  obtain ⟨t, rfl⟩ := (begins_iff _ _).mp h
  rw [List.append_assoc] at *
  simpa [List.append_assoc] using hasSub_of_middle x y t

theorem lstrip_eq_self (l : List Char) (h : edgeOk l = true) :
    lstripPy l = l := by
  cases l with
  | nil => rfl
  | cons c rest =>
    simp only [edgeOk, Bool.not_eq_true'] at h
    simp [lstripPy, List.dropWhile_cons, h]

theorem pyStrip_eq_self (l : List Char) (h1 : edgeOk l = true)
    (h2 : edgeOk l.reverse = true) : pyStrip l = l := by
  unfold pyStrip
  rw [lstrip_eq_self l h1]
  have : l.reverse.dropWhile isPySpace = l.reverse := lstrip_eq_self l.reverse h2
  rw [this, List.reverse_reverse]

theorem edgeOk_append (x y : List Char) (hx : x ≠ []) (h : edgeOk x = true) :
    edgeOk (x ++ y) = true := by
  cases x with
  | nil => exact absurd rfl hx
  | cons c rest => simpa [edgeOk] using h

theorem edgeOk_rev_append (x y : List Char) (hy : y ≠ [])
    (h : edgeOk y.reverse = true) : edgeOk (x ++ y).reverse = true := by
  rw [List.reverse_append]
  exact edgeOk_append _ _ (by simpa using hy) h

theorem partitionEq_append (k v : List Char) (h : k.contains '=' = false) :
    pyPartitionEq (k ++ '=' :: v) = (k, v) := by
  induction k with
  | nil => simp [pyPartitionEq]
  | cons c k' ih =>
    simp only [List.contains_cons, Bool.or_eq_false_iff, beq_eq_false_iff_ne,
      ne_eq] at h
    have hc : ¬c = '=' := fun hcc => h.1 hcc.symm
    simp [pyPartitionEq, hc, ih h.2]

theorem isEmpty_false_of_ne {α : Type} (l : List α) (h : l ≠ []) :
    l.isEmpty = false := by
  cases l with
  | nil => exact absurd rfl h
  | cons c r => rfl

theorem all_reverse_eq (p : Char → Bool) (l : List Char) :
    l.reverse.all p = l.all p := by
  induction l with
  | nil => rfl
  | cons c r ih =>
    simp [List.all_append, List.all_cons, ih, Bool.and_comm]

theorem splitlinesAux_line (l : List Char)
    (hl : l.all (fun c => !isLineTerm c) = true) :
    ∀ acc rest, pySplitlinesAux (l ++ '\n' :: rest) false acc =
      (acc.reverse ++ l) :: pySplitlinesAux rest false [] := by
  induction l with
  | nil =>
    have h1 : isLineTerm '\n' = true := by decide
    have h2 : ('\n' == '\r') = false := by decide
    intro acc rest
    simp [pySplitlinesAux, h1, h2]
  | cons c l' ih =>
    intro acc rest
    simp only [List.all_cons, Bool.and_eq_true, Bool.not_eq_true'] at hl
    have step : pySplitlinesAux (c :: (l' ++ '\n' :: rest)) false acc =
        pySplitlinesAux (l' ++ '\n' :: rest) false (c :: acc) := by
      simp [pySplitlinesAux, hl.1]
    show pySplitlinesAux (c :: (l' ++ '\n' :: rest)) false acc = _
    rw [step, ih hl.2 (c :: acc) rest]
    simp

theorem pySplitlines_join :
    ∀ ls : List (List Char), ls ≠ [] →
      (∀ l ∈ ls, l.all (fun c => !isLineTerm c) = true) →
      pySplitlines (joinWith (cs "\n") ls ++ cs "\n") = ls := by
  intro ls
  induction ls with
  | nil => intro h; exact absurd rfl h
  | cons l ls' ih =>
    intro _ hall
    cases ls' with
    | nil =>
      show pySplitlinesAux (l ++ '\n' :: []) false [] = [l]
      rw [splitlinesAux_line l (hall l (by simp))]
      simp [pySplitlinesAux]
    | cons l2 ls'' =>
      have hjoin : joinWith (cs "\n") (l :: l2 :: ls'') ++ cs "\n" =
          l ++ '\n' :: (joinWith (cs "\n") (l2 :: ls'') ++ cs "\n") := by
        show (l ++ cs "\n" ++ joinWith (cs "\n") (l2 :: ls'')) ++ cs "\n" = _
        simp [List.append_assoc]
        rfl
      show pySplitlines _ = _
      unfold pySplitlines
      rw [hjoin, splitlinesAux_line l (hall l (by simp))]
      have := ih (by simp) (fun x hx => hall x (by simp [hx]))
      simp only [List.reverse_nil, List.nil_append]
      rw [show pySplitlinesAux (joinWith (cs "\n") (l2 :: ls'') ++ cs "\n") false [] =
        pySplitlines (joinWith (cs "\n") (l2 :: ls'') ++ cs "\n") from rfl, this]

theorem splitWsAux_token :
    ∀ t : List Char, t.all (fun c => !isPySpace c) = true →
      ∀ r acc, pySplitWsAux (t ++ r) acc = pySplitWsAux r (t.reverse ++ acc) := by
  intro t
  induction t with
  | nil => intro _ r acc; simp
  | cons c t' ih =>
    intro h r acc
    simp only [List.all_cons, Bool.and_eq_true, Bool.not_eq_true'] at h
    have step : pySplitWsAux (c :: (t' ++ r)) acc =
        pySplitWsAux (t' ++ r) (c :: acc) := by
      simp [pySplitWsAux, h.1]
    show pySplitWsAux (c :: (t' ++ r)) acc = _
    rw [step, ih h.2 r (c :: acc)]
    simp

theorem splitWs_join :
    ∀ ts : List (List Char),
      (∀ t ∈ ts, t ≠ [] ∧ t.all (fun c => !isPySpace c) = true) →
      pySplitWs (joinWith (cs " ") ts) = ts := by
  intro ts
  induction ts with
  | nil => intro _; rfl
  | cons t ts' ih =>
    intro hall
    have ht := hall t (by simp)
    have hrevne : t.reverse ≠ [] := by simpa using ht.1
    cases ts' with
    | nil =>
      show pySplitWsAux t [] = [t]
      have h0 : pySplitWsAux (t ++ []) [] = pySplitWsAux [] (t.reverse ++ []) :=
        splitWsAux_token t ht.2 [] []
      simp only [List.append_nil] at h0
      rw [h0]
      simp [pySplitWsAux, isEmpty_false_of_ne _ hrevne]
    | cons t2 ts'' =>
      have hsp : isPySpace ' ' = true := by decide
      show pySplitWsAux (joinWith (cs " ") (t :: t2 :: ts'')) [] = _
      have hjoin : joinWith (cs " ") (t :: t2 :: ts'') =
          t ++ ' ' :: joinWith (cs " ") (t2 :: ts'') := by
        show t ++ cs " " ++ joinWith (cs " ") (t2 :: ts'') = _
        rw [List.append_assoc]
        rfl
      rw [hjoin, splitWsAux_token t ht.2]
      have step : pySplitWsAux (' ' :: joinWith (cs " ") (t2 :: ts''))
          (t.reverse ++ []) =
          t :: pySplitWsAux (joinWith (cs " ") (t2 :: ts'')) [] := by
        simp [pySplitWsAux, hsp, isEmpty_false_of_ne _ hrevne]
      rw [step]
      have := ih (fun x hx => hall x (by simp [hx]))
      rw [show pySplitWsAux (joinWith (cs " ") (t2 :: ts'')) [] =
        pySplitWs (joinWith (cs " ") (t2 :: ts'')) from rfl, this]

theorem splitWsAux_tokens_ok :
    ∀ (l acc : List Char), acc.all (fun c => !isPySpace c) = true →
      ∀ t ∈ pySplitWsAux l acc,
        t ≠ [] ∧ t.all (fun c => !isPySpace c) = true := by
  intro l
  induction l with
  | nil =>
    intro acc hacc t ht
    by_cases hE : acc = []
    · subst hE
      simp [pySplitWsAux] at ht
    · rw [show pySplitWsAux [] acc = [acc.reverse] by
        simp [pySplitWsAux, isEmpty_false_of_ne _ hE]] at ht
      rw [List.mem_singleton] at ht
      subst ht
      exact ⟨by simpa using hE, by rw [all_reverse_eq]; exact hacc⟩
  | cons c rest ih =>
    intro acc hacc t ht
    by_cases hc : isPySpace c = true
    · by_cases hE : acc = []
      · subst hE
        rw [show pySplitWsAux (c :: rest) [] = pySplitWsAux rest [] by
          simp [pySplitWsAux, hc]] at ht
        exact ih [] rfl t ht
      · rw [show pySplitWsAux (c :: rest) acc =
          acc.reverse :: pySplitWsAux rest [] by
          simp [pySplitWsAux, hc, isEmpty_false_of_ne _ hE]] at ht
        rw [List.mem_cons] at ht
        rcases ht with rfl | ht
        · exact ⟨by simpa using hE, by rw [all_reverse_eq]; exact hacc⟩
        · exact ih [] rfl t ht
    · rw [show pySplitWsAux (c :: rest) acc =
        pySplitWsAux rest (c :: acc) by simp [pySplitWsAux, hc]] at ht
      refine ih (c :: acc) ?_ t ht
      simp only [List.all_cons, Bool.and_eq_true, Bool.not_eq_true']
      exact ⟨by simpa using hc, hacc⟩

theorem splitWs_tokens_ok (l : List Char) :
    ∀ t ∈ pySplitWs l, t ≠ [] ∧ t.all (fun c => !isPySpace c) = true :=
  splitWsAux_tokens_ok l [] rfl

theorem joinWith_cons2 (sep t u : List Char) (us : List (List Char)) :
    joinWith sep (t :: u :: us) = t ++ sep ++ joinWith sep (u :: us) := rfl

theorem join_ne_nil (sep t : List Char) (ts : List (List Char)) (ht : t ≠ []) :
    joinWith sep (t :: ts) ≠ [] := by
  cases ts with
  | nil => exact ht
  | cons u us =>
    rw [joinWith_cons2]
    simp [ht]

theorem joinWith_append (sep : List Char) :
    ∀ ts1 ts2 : List (List Char), ts1 ≠ [] → ts2 ≠ [] →
      joinWith sep ts1 ++ sep ++ joinWith sep ts2 = joinWith sep (ts1 ++ ts2) := by
  intro ts1
  induction ts1 with
  | nil => intro ts2 h; exact absurd rfl h
  | cons t ts1' ih =>
    intro ts2 _ h2
    cases ts1' with
    | nil =>
      cases ts2 with
      | nil => exact absurd rfl h2
      | cons u us =>
        show t ++ sep ++ joinWith sep (u :: us) = joinWith sep (t :: u :: us)
        rw [joinWith_cons2]
    | cons t' ts1'' =>
      have hih := ih ts2 (by simp) h2
      calc joinWith sep (t :: t' :: ts1'') ++ sep ++ joinWith sep ts2
          = (t ++ sep ++ joinWith sep (t' :: ts1'')) ++ sep ++
              joinWith sep ts2 := by rw [joinWith_cons2]
        _ = t ++ sep ++
              (joinWith sep (t' :: ts1'') ++ sep ++ joinWith sep ts2) := by
            simp [List.append_assoc]
        _ = t ++ sep ++ joinWith sep (t' :: (ts1'' ++ ts2)) := by
            rw [hih, List.cons_append]
        _ = joinWith sep ((t :: t' :: ts1'') ++ ts2) := by
            show _ = joinWith sep (t :: t' :: (ts1'' ++ ts2))
            rw [joinWith_cons2]

theorem all_nonterm_of_nonspace (l : List Char)
    (h : l.all (fun c => !isPySpace c) = true) :
    l.all (fun c => !isLineTerm c) = true := by
  rw [List.all_eq_true] at h ⊢
  intro x hx
  have hs := h x hx
  rcases ht : isLineTerm x with _ | _
  · simp
  · rw [isPySpace_of_isLineTerm x ht] at hs
    exact absurd hs (by simp)

theorem join_all (p : Char → Bool) (sep : List Char) :
    ∀ ts : List (List Char), sep.all p = true →
      (∀ t ∈ ts, t.all p = true) → (joinWith sep ts).all p = true := by
  intro ts
  induction ts with
  | nil => intro _ _; rfl
  | cons t ts' ih =>
    intro hsep hall
    cases ts' with
    | nil => exact hall t (by simp)
    | cons u us =>
      rw [joinWith_cons2, List.all_append, List.all_append]
      simp only [Bool.and_eq_true]
      exact ⟨⟨hall t (by simp), hsep⟩,
        ih hsep (fun x hx => hall x (by simp [hx]))⟩

theorem edgeOk_of_all (t : List Char)
    (h : t.all (fun c => !isPySpace c) = true) : edgeOk t = true := by
  cases t with
  | nil => rfl
  | cons c r =>
    simp only [List.all_cons, Bool.and_eq_true] at h
    simpa [edgeOk] using h.1

theorem edgeOk_join (sep : List Char) (t : List Char) (ts : List (List Char))
    (ht : t ≠ []) (h : edgeOk t = true) :
    edgeOk (joinWith sep (t :: ts)) = true := by
  cases ts with
  | nil => exact h
  | cons u us =>
    rw [joinWith_cons2, List.append_assoc]
    exact edgeOk_append _ _ ht h

theorem edgeOk_rev_join (sep : List Char) :
    ∀ ts : List (List Char), ts ≠ [] →
      (∀ t ∈ ts, t ≠ [] ∧ edgeOk t.reverse = true) →
      edgeOk (joinWith sep ts).reverse = true := by
  intro ts
  induction ts with
  | nil => intro h; exact absurd rfl h
  | cons t ts' ih =>
    intro _ hall
    cases ts' with
    | nil => exact (hall t (by simp)).2
    | cons u us =>
      rw [joinWith_cons2]
      have hune : u ≠ [] := (hall u (by simp)).1
      exact edgeOk_rev_append _ _ (join_ne_nil sep u us hune)
        (ih (by simp) (fun x hx => hall x (by simp [hx])))

theorem valOk_of_execNormal (ec : List Char) (h : execNormal ec = true) :
    valOk ec = true := by
  by_cases hec : ec = []
  · subst hec; rfl
  · have heq : joinWith (cs " ") (pySplitWs ec) = ec := by
      simpa [execNormal] using h
    have htok := splitWs_tokens_ok ec
    have hts : pySplitWs ec ≠ [] := by
      intro hnil
      rw [hnil] at heq
      exact hec heq.symm
    have hsp : (cs " ").all (fun c => !isLineTerm c) = true := by decide
    simp only [valOk, Bool.and_eq_true]
    refine ⟨⟨?_, ?_⟩, ?_⟩
    · rw [← heq]
      exact join_all _ _ _ hsp
        (fun t htm => all_nonterm_of_nonspace t (htok t htm).2)
    · rw [← heq]
      cases hps : pySplitWs ec with
      | nil => exact absurd hps hts
      | cons t ts' =>
        have := htok t (by rw [hps]; simp)
        exact edgeOk_join _ t ts' this.1 (edgeOk_of_all t this.2)
    · rw [← heq]
      refine edgeOk_rev_join _ _ hts (fun t htm => ?_)
      have := htok t htm
      exact ⟨this.1, edgeOk_of_all t.reverse (by rw [all_reverse_eq]; exact this.2)⟩

theorem firstNoEq_none (ts : List (List Char))
    (h : ∀ t ∈ ts, t.contains '=' = true) : firstNoEq ts = none := by
  induction ts with
  | nil => rfl
  | cons t ts' ih =>
    rw [show firstNoEq (t :: ts') =
      (if t.contains '=' then (firstNoEq ts').map (fun i => i + 1)
       else some 0) from rfl]
    rw [h t (by simp), if_pos rfl, ih (fun x hx => h x (by simp [hx]))]
    rfl

theorem firstNoEq_append :
    ∀ ts1 : List (List Char), (∀ t ∈ ts1, t.contains '=' = true) →
      ∀ (t0 : List Char) (rest : List (List Char)),
        t0.contains '=' = false →
        firstNoEq (ts1 ++ t0 :: rest) = some ts1.length := by
  intro ts1
  induction ts1 with
  | nil =>
    intro _ t0 rest h0
    rw [List.nil_append,
      show firstNoEq (t0 :: rest) =
        (if t0.contains '=' then (firstNoEq rest).map (fun i => i + 1)
         else some 0) from rfl, h0]
    rfl
  | cons t ts1' ih =>
    intro h t0 rest h0
    rw [List.cons_append,
      show firstNoEq (t :: (ts1' ++ t0 :: rest)) =
        (if t.contains '=' then
          (firstNoEq (ts1' ++ t0 :: rest)).map (fun i => i + 1)
         else some 0) from rfl,
      h t (by simp), if_pos rfl,
      ih (fun x hx => h x (by simp [hx])) t0 rest h0]
    rfl

theorem scanStep_header (st : Bool × Dict) :
    scanStep st (cs "[Desktop Entry]") = (true, st.2) := rfl

theorem begins_single_append (a : Char) (k X : List Char) (hk : k ≠ []) :
    begins [a] (k ++ X) = begins [a] k := by
  cases k with
  | nil => exact absurd rfl hk
  | cons kc k' => simp [begins]

theorem contains_mid (k v : List Char) :
    (k ++ '=' :: v).contains '=' = true := by
  induction k with
  | nil => simp [List.contains_cons]
  | cons c k' ih => simp [List.contains_cons, ih]

theorem nonterm_of_valOk (v : List Char) (h : valOk v = true) :
    v.all (fun c => !isLineTerm c) = true := by
  simp only [valOk, Bool.and_eq_true] at h
  exact h.1.1

theorem strip_of_valOk (v : List Char) (h : valOk v = true) :
    pyStrip v = v := by
  simp only [valOk, Bool.and_eq_true] at h
  exact pyStrip_eq_self v h.1.2 h.2

theorem scanStep_field (d : Dict) (k v : List Char)
    (hk1 : k ≠ []) (hk2 : edgeOk k = true) (hk3 : edgeOk k.reverse = true)
    (hk4 : begins (cs "#") k = false) (hk5 : begins (cs "[") k = false)
    (hk6 : k.contains '=' = false) (hv : valOk v = true) :
    scanStep (true, d) (k ++ '=' :: v) = (true, upd d k v) := by
  have hvp : (v.all (fun c => !isLineTerm c) = true ∧ edgeOk v = true) ∧
      edgeOk v.reverse = true := by
    simpa only [valOk, Bool.and_eq_true] using hv
  have hksp : isPySpace '=' = false := by decide
  have hstrip : pyStrip (k ++ '=' :: v) = k ++ '=' :: v := by
    apply pyStrip_eq_self
    · exact edgeOk_append k _ hk1 hk2
    · cases v with
      | nil =>
        rw [show (k ++ ['=']).reverse = '=' :: k.reverse by
          rw [List.reverse_append]; rfl]
        simp [edgeOk, hksp]
      | cons c v' =>
        apply edgeOk_rev_append k _ (by simp)
        rw [show ('=' :: c :: v').reverse = (c :: v').reverse ++ ['='] by
          rw [List.reverse_cons]]
        exact edgeOk_append _ _ (by simp) hvp.2
  have hne : k ++ '=' :: v ≠ [] := by
    cases k with
    | nil => exact absurd rfl hk1
    | cons a b => simp
  have hc1 : ((k ++ '=' :: v).isEmpty || begins (cs "#") (k ++ '=' :: v)) = false := by
    rw [isEmpty_false_of_ne _ hne,
      show cs "#" = ['#'] from rfl, begins_single_append '#' k _ hk1,
      show begins ['#'] k = begins (cs "#") k from rfl, hk4]
    rfl
  have hc2 : (begins (cs "[") (k ++ '=' :: v) &&
      ((k ++ '=' :: v).getLast? == some ']')) = false := by
    rw [show cs "[" = ['['] from rfl, begins_single_append '[' k _ hk1,
      show begins ['['] k = begins (cs "[") k from rfl, hk5, Bool.false_and]
  have hc3 : (k ++ '=' :: v).contains '=' = true := contains_mid k v
  simp only [scanStep, hstrip, hc1, hc2, hc3,
    partitionEq_append k v hk6, strip_of_valOk v hv,
    pyStrip_eq_self k hk2 hk3]
  simp

theorem foldl_single (st : Bool × Dict) (l : List Char) :
    List.foldl scanStep st [l] = scanStep st l := rfl

theorem foldl_opt_field (d : Dict) (c : Bool) (k v : List Char)
    (hk1 : k ≠ []) (hk2 : edgeOk k = true) (hk3 : edgeOk k.reverse = true)
    (hk4 : begins (cs "#") k = false) (hk5 : begins (cs "[") k = false)
    (hk6 : k.contains '=' = false) (hv : valOk v = true) :
    List.foldl scanStep (true, d) (if c then [k ++ '=' :: v] else []) =
    (true, if c then upd d k v else d) := by
  cases c with
  | false => rfl
  | true =>
    have hfold : List.foldl scanStep (true, d)
        (if (true : Bool) then [k ++ '=' :: v] else []) =
        scanStep (true, d) (k ++ '=' :: v) := rfl
    rw [hfold, scanStep_field d k v hk1 hk2 hk3 hk4 hk5 hk6 hv]
    rfl

theorem splitOn_ne_nil (sep : Char) (l : List Char) : pySplitOn sep l ≠ [] := by
  cases l with
  | nil =>
    show ([[]] : List (List Char)) ≠ []
    simp
  | cons c r =>
    simp only [pySplitOn]
    split
    · simp
    · split <;> simp

theorem map_self {α : Type} (f : α → α) :
    ∀ l : List α, (∀ t ∈ l, f t = t) → l.map f = l := by
  intro l
  induction l with
  | nil => intro _; rfl
  | cons x xs ih =>
    intro h
    rw [List.map_cons, h x (by simp), ih (fun t ht => h t (by simp [ht]))]

theorem tokens_of_envVarsOk (ev : List Char) (h : envVarsOk ev = true) :
    ∀ t ∈ pySplitOn ';' ev,
      t ≠ [] ∧ t.all (fun c => !isPySpace c) = true ∧
      t.contains '=' = true := by
  intro t ht
  rw [envVarsOk, List.all_eq_true] at h
  have := h t ht
  simp only [tokenOk, Bool.and_eq_true] at this
  refine ⟨?_, this.1.2, this.2⟩
  intro hnil
  rw [hnil] at this
  exact absurd this.1.1 (by simp)

theorem envParts_eq_splitOn (ev : List Char) (h : envVarsOk ev = true) :
    envParts ev = pySplitOn ';' ev := by
  have htok := tokens_of_envVarsOk ev h
  unfold envParts
  rw [map_self pyStrip _ (fun t ht => by
    have := htok t ht
    exact pyStrip_eq_self t (edgeOk_of_all t this.2.1)
      (edgeOk_of_all t.reverse (by rw [all_reverse_eq]; exact this.2.1)))]
  rw [List.filter_eq_self.mpr (fun t ht => by
    simp [isEmpty_false_of_ne t (htok t ht).1])]

theorem edgeOk_of_valOk (v : List Char) (h : valOk v = true) :
    edgeOk v = true := by
  simp only [valOk, Bool.and_eq_true] at h
  exact h.1.2

theorem edgeOkRev_of_valOk (v : List Char) (h : valOk v = true) :
    edgeOk v.reverse = true := by
  simp only [valOk, Bool.and_eq_true] at h
  exact h.2

theorem execNormal_join (ec : List Char) (h : execNormal ec = true) :
    joinWith (cs " ") (pySplitWs ec) = ec := by
  simpa [execNormal] using h

theorem splitWs_ne_nil_of_ne (ec : List Char) (hnorm : execNormal ec = true)
    (hec : ec ≠ []) : pySplitWs ec ≠ [] := by
  intro hnil
  have := execNormal_join ec hnorm
  rw [hnil] at this
  exact hec this.symm

theorem execValue_unwrap (ev ec : List Char) (hev : ev ≠ [])
    (hvo : envVarsOk ev = true) (hnorm : execNormal ec = true)
    (hhead : execHeadNoEq ec = true) (hec : ec ≠ []) :
    envUnwrap ev
      (cs "env " ++ joinWith (cs " ") (pySplitOn ';' ev) ++ cs " " ++ ec) =
    ec := by
  have htoks := tokens_of_envVarsOk ev hvo
  have htoksne : pySplitOn ';' ev ≠ [] := splitOn_ne_nil ';' ev
  have hecj : joinWith (cs " ") (pySplitWs ec) = ec := execNormal_join ec hnorm
  have heToksne : pySplitWs ec ≠ [] := splitWs_ne_nil_of_ne ec hnorm hec
  have hval : cs "env " ++ joinWith (cs " ") (pySplitOn ';' ev) ++ cs " " ++ ec =
      cs "env " ++ (joinWith (cs " ") (pySplitOn ';' ev) ++ cs " " ++ ec) := by
    simp [List.append_assoc]
  have hcond : (!ev.isEmpty && begins (cs "env ")
      (cs "env " ++ joinWith (cs " ") (pySplitOn ';' ev) ++ cs " " ++ ec)) = true := by
    rw [hval, begins_self, isEmpty_false_of_ne ev hev]
    rfl
  have hdrop : (cs "env " ++ joinWith (cs " ") (pySplitOn ';' ev) ++ cs " " ++ ec).drop 4 =
      joinWith (cs " ") (pySplitOn ';' ev) ++ cs " " ++ ec := by
    rw [hval, show (4 : Nat) = (cs "env ").length from rfl]
    exact List.drop_left _ _
  have hbig : joinWith (cs " ") (pySplitOn ';' ev) ++ cs " " ++ ec =
      joinWith (cs " ") (pySplitOn ';' ev ++ pySplitWs ec) := by
    rw [← joinWith_append (cs " ") _ _ htoksne heToksne, hecj]
  have hsplit : pySplitWs (joinWith (cs " ") (pySplitOn ';' ev ++ pySplitWs ec)) =
      pySplitOn ';' ev ++ pySplitWs ec := by
    apply splitWs_join
    intro t ht
    rcases List.mem_append.mp ht with h | h
    · exact ⟨(htoks t h).1, (htoks t h).2.1⟩
    · exact splitWs_tokens_ok ec t h
  cases heT : pySplitWs ec with
  | nil => exact absurd heT heToksne
  | cons e0 erest =>
    have hhead0 : e0.contains '=' = false := by
      rw [execHeadNoEq, heT] at hhead
      simpa using hhead
    have hidx : firstNoEq (pySplitOn ';' ev ++ e0 :: erest) =
        some (pySplitOn ';' ev).length :=
      firstNoEq_append _ (fun t ht => (htoks t ht).2.2) e0 erest hhead0
    simp only [envUnwrap, hcond, if_true]
    rw [hdrop, hbig, hsplit, heT, hidx, Option.getD_some, List.drop_left,
      ← heT, hecj]

theorem execValue_valOk (ev ec : List Char)
    (hvo : envVarsOk ev = true) (hnorm : execNormal ec = true)
    (hec : ec ≠ []) :
    valOk (cs "env " ++ joinWith (cs " ") (pySplitOn ';' ev) ++ cs " " ++ ec) =
      true := by
  have htoks := tokens_of_envVarsOk ev hvo
  have hvec : valOk ec = true := valOk_of_execNormal ec hnorm
  simp only [valOk, Bool.and_eq_true]
  refine ⟨⟨?_, ?_⟩, ?_⟩
  · rw [List.all_append, List.all_append, List.all_append]
    simp only [Bool.and_eq_true]
    refine ⟨⟨⟨by decide, ?_⟩, by decide⟩, nonterm_of_valOk ec hvec⟩
    exact join_all _ _ _ (by decide)
      (fun t ht => all_nonterm_of_nonspace t (htoks t ht).2.1)
  · have : cs "env " ++ joinWith (cs " ") (pySplitOn ';' ev) ++ cs " " ++ ec =
        cs "env " ++ (joinWith (cs " ") (pySplitOn ';' ev) ++ cs " " ++ ec) := by
      simp [List.append_assoc]
    rw [this]
    exact edgeOk_append _ _ (by simp [cs]) (by decide)
  · exact edgeOk_rev_append _ _ hec (edgeOkRev_of_valOk ec hvec)

theorem cs_eq_iff (a b : String) : cs a = cs b ↔ a = b := by
  rw [cs, cs]
  exact (String.ext_iff).symm

theorem pair_snd (a : Bool) (d : Dict) : (Prod.mk a d).2 = d := rfl

theorem scanField_Type (d : Dict) (v : List Char) (hv : valOk v = true) :
    scanStep (true, d) (cs "Type" ++ '=' :: v) = (true, upd d (cs "Type") v) :=
  scanStep_field d _ v (by decide) (by decide) (by decide) (by decide)
    (by decide) (by decide) hv

theorem scanField_Name (d : Dict) (v : List Char) (hv : valOk v = true) :
    scanStep (true, d) (cs "Name" ++ '=' :: v) = (true, upd d (cs "Name") v) :=
  scanStep_field d _ v (by decide) (by decide) (by decide) (by decide)
    (by decide) (by decide) hv

theorem scanField_Exec (d : Dict) (v : List Char) (hv : valOk v = true) :
    scanStep (true, d) (cs "Exec" ++ '=' :: v) = (true, upd d (cs "Exec") v) :=
  scanStep_field d _ v (by decide) (by decide) (by decide) (by decide)
    (by decide) (by decide) hv

theorem scanField_Terminal (d : Dict) (v : List Char) (hv : valOk v = true) :
    scanStep (true, d) (cs "Terminal" ++ '=' :: v) =
      (true, upd d (cs "Terminal") v) :=
  scanStep_field d _ v (by decide) (by decide) (by decide) (by decide)
    (by decide) (by decide) hv

theorem scanField_Hidden (d : Dict) (v : List Char) (hv : valOk v = true) :
    scanStep (true, d) (cs "Hidden" ++ '=' :: v) =
      (true, upd d (cs "Hidden") v) :=
  scanStep_field d _ v (by decide) (by decide) (by decide) (by decide)
    (by decide) (by decide) hv

theorem foldOpt_Comment (d : Dict) (c : Bool) (v : List Char)
    (hv : valOk v = true) :
    List.foldl scanStep (true, d) (if c then [cs "Comment" ++ '=' :: v] else []) =
    (true, if c then upd d (cs "Comment") v else d) :=
  foldl_opt_field d c _ v (by decide) (by decide) (by decide) (by decide)
    (by decide) (by decide) hv

theorem foldOpt_Icon (d : Dict) (c : Bool) (v : List Char)
    (hv : valOk v = true) :
    List.foldl scanStep (true, d) (if c then [cs "Icon" ++ '=' :: v] else []) =
    (true, if c then upd d (cs "Icon") v else d) :=
  foldl_opt_field d c _ v (by decide) (by decide) (by decide) (by decide)
    (by decide) (by decide) hv

theorem foldOpt_Path (d : Dict) (c : Bool) (v : List Char)
    (hv : valOk v = true) :
    List.foldl scanStep (true, d) (if c then [cs "Path" ++ '=' :: v] else []) =
    (true, if c then upd d (cs "Path") v else d) :=
  foldl_opt_field d c _ v (by decide) (by decide) (by decide) (by decide)
    (by decide) (by decide) hv

theorem foldOpt_Categories (d : Dict) (c : Bool) (v : List Char)
    (hv : valOk v = true) :
    List.foldl scanStep (true, d)
      (if c then [cs "Categories" ++ '=' :: v] else []) =
    (true, if c then upd d (cs "Categories") v else d) :=
  foldl_opt_field d c _ v (by decide) (by decide) (by decide) (by decide)
    (by decide) (by decide) hv

theorem foldOpt_Keywords (d : Dict) (c : Bool) (v : List Char)
    (hv : valOk v = true) :
    List.foldl scanStep (true, d)
      (if c then [cs "Keywords" ++ '=' :: v] else []) =
    (true, if c then upd d (cs "Keywords") v else d) :=
  foldl_opt_field d c _ v (by decide) (by decide) (by decide) (by decide)
    (by decide) (by decide) hv

theorem foldOpt_URL (d : Dict) (c : Bool) (v : List Char)
    (hv : valOk v = true) :
    List.foldl scanStep (true, d) (if c then [cs "URL" ++ '=' :: v] else []) =
    (true, if c then upd d (cs "URL") v else d) :=
  foldl_opt_field d c _ v (by decide) (by decide) (by decide) (by decide)
    (by decide) (by decide) hv

theorem foldOpt_MimeType (d : Dict) (c : Bool) (v : List Char)
    (hv : valOk v = true) :
    List.foldl scanStep (true, d)
      (if c then [cs "MimeType" ++ '=' :: v] else []) =
    (true, if c then upd d (cs "MimeType") v else d) :=
  foldl_opt_field d c _ v (by decide) (by decide) (by decide) (by decide)
    (by decide) (by decide) hv

theorem foldOpt_SWC (d : Dict) (c : Bool) (v : List Char)
    (hv : valOk v = true) :
    List.foldl scanStep (true, d)
      (if c then [cs "StartupWMClass" ++ '=' :: v] else []) =
    (true, if c then upd d (cs "StartupWMClass") v else d) :=
  foldl_opt_field d c _ v (by decide) (by decide) (by decide) (by decide)
    (by decide) (by decide) hv

theorem foldOpt_XEnv (d : Dict) (c : Bool) (v : List Char)
    (hv : valOk v = true) :
    List.foldl scanStep (true, d)
      (if c then [cs "X-Env-Vars" ++ '=' :: v] else []) =
    (true, if c then upd d (cs "X-Env-Vars") v else d) :=
  foldl_opt_field d c _ v (by decide) (by decide) (by decide) (by decide)
    (by decide) (by decide) hv

theorem getD_opt (v : List Char) :
    (if !v.isEmpty then some v else none).getD ([] : List Char) = v := by
  by_cases h : v = []
  · subst h; rfl
  · rw [isEmpty_false_of_ne v h]; rfl

theorem mem_opt {x l : List Char} {c : Prop} [Decidable c]
    (h : l ∈ (if c then [x] else ([] : List (List Char)))) : l = x := by
  by_cases hc : c
  · rw [if_pos hc] at h
    exact List.mem_singleton.mp h
  · rw [if_neg hc] at h
    exact absurd h (List.not_mem_nil l)

theorem line_nonterm_of (k v : List Char)
    (hk : k.all (fun c => !isLineTerm c) = true) (hv : valOk v = true) :
    (k ++ v).all (fun c => !isLineTerm c) = true := by
  rw [List.all_append, hk, nonterm_of_valOk v hv]
  rfl

theorem entryLines_nonterm (e : DesktopEntry) (h : wfEntry e) :
    ∀ l ∈ e.entryLines, l.all (fun c => !isLineTerm c) = true := by
  obtain ⟨hname, htype, hcomm, hicon, hpath, hcat, hkey, hurl, hmime, hswc,
    henvv, hnorm, henvimp⟩ := h
  intro l hl
  simp only [DesktopEntry.entryLines, List.mem_append, List.mem_singleton] at hl
  rcases hl with ((((((((((((((h|h)|h)|h)|h)|h)|h)|h)|h)|h)|h)|h)|h)|h)|h)
  · subst h; decide
  · subst h; exact line_nonterm_of _ _ (by decide) htype
  · subst h; exact line_nonterm_of _ _ (by decide) hname
  · rw [mem_opt h]; exact line_nonterm_of _ _ (by decide) hcomm
  · rw [mem_opt h]; exact line_nonterm_of _ _ (by decide) hicon
  · by_cases hc1 : (!e.exec.isEmpty) = true
    · rw [if_pos hc1] at h
      have hexec : e.exec ≠ [] := by
        intro hnil; rw [hnil] at hc1; exact absurd hc1 (by decide)
      by_cases hc2 : (!e.env_vars.isEmpty) = true
      · rw [if_pos hc2] at h
        have henv : e.env_vars ≠ [] := by
          intro hnil; rw [hnil] at hc2; exact absurd hc2 (by decide)
        have hvo : envVarsOk e.env_vars = true := (henvimp henv).1
        have hparts : envParts e.env_vars = pySplitOn ';' e.env_vars :=
          envParts_eq_splitOn _ hvo
        by_cases hc3 : (!(envParts e.env_vars).isEmpty) = true
        · rw [if_pos hc3] at h
          rw [List.mem_singleton.mp h, hparts]
          show (cs "Exec=" ++ (cs "env " ++
            joinWith (cs " ") (pySplitOn ';' e.env_vars) ++ cs " " ++
            e.exec)).all (fun c => !isLineTerm c) = true
          exact line_nonterm_of _ _ (by decide)
            (execValue_valOk e.env_vars e.exec hvo hnorm hexec)
        · rw [if_neg hc3] at h
          rw [List.mem_singleton.mp h]
          exact line_nonterm_of _ _ (by decide) (valOk_of_execNormal _ hnorm)
      · rw [if_neg hc2] at h
        rw [List.mem_singleton.mp h]
        exact line_nonterm_of _ _ (by decide) (valOk_of_execNormal _ hnorm)
    · rw [if_neg hc1] at h
      exact absurd h (List.not_mem_nil l)
  · rw [mem_opt h]; exact line_nonterm_of _ _ (by decide) hpath
  · subst h
    cases e.terminal with
    | false => decide
    | true => decide
  · rw [mem_opt h]; exact line_nonterm_of _ _ (by decide) hcat
  · rw [mem_opt h]; exact line_nonterm_of _ _ (by decide) hkey
  · rw [mem_opt h]; exact line_nonterm_of _ _ (by decide) hurl
  · rw [mem_opt h]; exact line_nonterm_of _ _ (by decide) hmime
  · rw [mem_opt h]; exact line_nonterm_of _ _ (by decide) hswc
  · subst h
    cases e.hidden with
    | false => decide
    | true => decide
  · rw [mem_opt h]; exact line_nonterm_of _ _ (by decide) henvv

theorem getD_opt' (v : List Char) :
    (if v = [] then none else some v).getD ([] : List Char) = v := by
  by_cases h : v = []
  · subst h; rfl
  · rw [if_neg h]; rfl

theorem from_string_to_string (e : DesktopEntry) (h : wfEntry e)
    (fp : Option (List Char)) :
    DesktopEntry.from_string e.to_string fp = { e with file_path := fp } := by
  have hlnt := entryLines_nonterm e h
  obtain ⟨hname, htype, hcomm, hicon, hpath, hcat, hkey, hurl, hmime, hswc,
    henvv, hnorm, henvimp⟩ := h
  have hlines : pySplitlines e.to_string = e.entryLines := by
    rw [DesktopEntry.to_string]
    exact pySplitlines_join _ (by simp [DesktopEntry.entryLines]) hlnt
  have htermv : valOk (if e.terminal then cs "true" else cs "false") = true := by
    cases e.terminal <;> rfl
  have hhidv : valOk (if e.hidden then cs "true" else cs "false") = true := by
    cases e.hidden <;> rfl
  have htermb : (decide (pyLower (if e.terminal then cs "true" else cs "false") =
      cs "true")) = e.terminal := by
    cases e.terminal <;> rfl
  have hhidb : (decide (pyLower (if e.hidden then cs "true" else cs "false") =
      cs "true")) = e.hidden := by
    cases e.hidden <;> rfl
  by_cases hexec : e.exec = []
  · -- no Exec line is emitted, and parsing leaves the command empty
    have hseg : (if !e.exec.isEmpty then
        (if !e.env_vars.isEmpty then
          (if !(envParts e.env_vars).isEmpty then
            [cs "Exec=env " ++ joinWith (cs " ") (envParts e.env_vars) ++
              cs " " ++ e.exec]
           else [cs "Exec=" ++ e.exec])
         else [cs "Exec=" ++ e.exec])
       else []) = ([] : List (List Char)) := by
      rw [hexec]
      rfl
    have hbeg : begins (cs "env ") [] = false := by decide
    have hunwA : envUnwrap e.env_vars [] = [] := by
      simp [envUnwrap, hbeg]
    simp only [DesktopEntry.from_string, parsedDict, parseState, hlines,
      DesktopEntry.entryLines, hseg]
    rw [show cs "Type=" ++ e.entry_type = cs "Type" ++ '=' :: e.entry_type from rfl,
        show cs "Name=" ++ e.name = cs "Name" ++ '=' :: e.name from rfl,
        show cs "Comment=" ++ e.comment = cs "Comment" ++ '=' :: e.comment from rfl,
        show cs "Icon=" ++ e.icon = cs "Icon" ++ '=' :: e.icon from rfl,
        show cs "Path=" ++ e.path = cs "Path" ++ '=' :: e.path from rfl,
        show cs "Terminal=" ++ (if e.terminal then cs "true" else cs "false") =
          cs "Terminal" ++ '=' :: (if e.terminal then cs "true" else cs "false") from rfl,
        show cs "Categories=" ++ e.categories =
          cs "Categories" ++ '=' :: e.categories from rfl,
        show cs "Keywords=" ++ e.keywords =
          cs "Keywords" ++ '=' :: e.keywords from rfl,
        show cs "URL=" ++ e.url = cs "URL" ++ '=' :: e.url from rfl,
        show cs "MimeType=" ++ e.mime_type =
          cs "MimeType" ++ '=' :: e.mime_type from rfl,
        show cs "StartupWMClass=" ++ e.startup_wm_class =
          cs "StartupWMClass" ++ '=' :: e.startup_wm_class from rfl,
        show cs "Hidden=" ++ (if e.hidden then cs "true" else cs "false") =
          cs "Hidden" ++ '=' :: (if e.hidden then cs "true" else cs "false") from rfl,
        show cs "X-Env-Vars=" ++ e.env_vars =
          cs "X-Env-Vars" ++ '=' :: e.env_vars from rfl]
    simp only [List.foldl_append, List.foldl_nil, foldl_single, scanStep_header,
      pair_snd, scanField_Type, scanField_Name, scanField_Terminal,
      scanField_Hidden, foldOpt_Comment, foldOpt_Icon, foldOpt_Path,
      foldOpt_Categories, foldOpt_Keywords, foldOpt_URL, foldOpt_MimeType,
      foldOpt_SWC, foldOpt_XEnv,
      htype, hname, hcomm, hicon, hpath, hcat, hkey, hurl, hmime, hswc,
      henvv, htermv, hhidv]
    simp only [pair_snd,
      apply_ite (fun d : Dict => d (cs "Type")),
      apply_ite (fun d : Dict => d (cs "Name")),
      apply_ite (fun d : Dict => d (cs "Comment")),
      apply_ite (fun d : Dict => d (cs "Icon")),
      apply_ite (fun d : Dict => d (cs "Exec")),
      apply_ite (fun d : Dict => d (cs "Path")),
      apply_ite (fun d : Dict => d (cs "Terminal")),
      apply_ite (fun d : Dict => d (cs "Categories")),
      apply_ite (fun d : Dict => d (cs "Keywords")),
      apply_ite (fun d : Dict => d (cs "URL")),
      apply_ite (fun d : Dict => d (cs "MimeType")),
      apply_ite (fun d : Dict => d (cs "StartupWMClass")),
      apply_ite (fun d : Dict => d (cs "Hidden")),
      apply_ite (fun d : Dict => d (cs "X-Env-Vars")),
      upd, cs_eq_iff, emptyD]
    simp [htermb, hhidb, hunwA, getD_opt, getD_opt', hexec]
  · by_cases henv : e.env_vars = []
    · -- plain Exec line
      have hvexec : valOk e.exec = true := valOk_of_execNormal _ hnorm
      have hseg : (if !e.exec.isEmpty then
          (if !e.env_vars.isEmpty then
            (if !(envParts e.env_vars).isEmpty then
              [cs "Exec=env " ++ joinWith (cs " ") (envParts e.env_vars) ++
                cs " " ++ e.exec]
             else [cs "Exec=" ++ e.exec])
           else [cs "Exec=" ++ e.exec])
         else []) = [cs "Exec=" ++ e.exec] := by
        rw [isEmpty_false_of_ne _ hexec, henv]
        rfl
      have hunw : envUnwrap ([] : List Char) e.exec = e.exec := rfl
      simp only [DesktopEntry.from_string, parsedDict, parseState, hlines,
        DesktopEntry.entryLines, hseg]
      rw [show cs "Type=" ++ e.entry_type = cs "Type" ++ '=' :: e.entry_type from rfl,
          show cs "Name=" ++ e.name = cs "Name" ++ '=' :: e.name from rfl,
          show cs "Comment=" ++ e.comment = cs "Comment" ++ '=' :: e.comment from rfl,
          show cs "Icon=" ++ e.icon = cs "Icon" ++ '=' :: e.icon from rfl,
          show cs "Exec=" ++ e.exec = cs "Exec" ++ '=' :: e.exec from rfl,
          show cs "Path=" ++ e.path = cs "Path" ++ '=' :: e.path from rfl,
          show cs "Terminal=" ++ (if e.terminal then cs "true" else cs "false") =
            cs "Terminal" ++ '=' :: (if e.terminal then cs "true" else cs "false") from rfl,
          show cs "Categories=" ++ e.categories =
            cs "Categories" ++ '=' :: e.categories from rfl,
          show cs "Keywords=" ++ e.keywords =
            cs "Keywords" ++ '=' :: e.keywords from rfl,
          show cs "URL=" ++ e.url = cs "URL" ++ '=' :: e.url from rfl,
          show cs "MimeType=" ++ e.mime_type =
            cs "MimeType" ++ '=' :: e.mime_type from rfl,
          show cs "StartupWMClass=" ++ e.startup_wm_class =
            cs "StartupWMClass" ++ '=' :: e.startup_wm_class from rfl,
          show cs "Hidden=" ++ (if e.hidden then cs "true" else cs "false") =
            cs "Hidden" ++ '=' :: (if e.hidden then cs "true" else cs "false") from rfl,
          show cs "X-Env-Vars=" ++ e.env_vars =
            cs "X-Env-Vars" ++ '=' :: e.env_vars from rfl]
      simp only [List.foldl_append, List.foldl_nil, foldl_single, scanStep_header,
        pair_snd, scanField_Type, scanField_Name, scanField_Exec,
        scanField_Terminal, scanField_Hidden, foldOpt_Comment, foldOpt_Icon,
        foldOpt_Path, foldOpt_Categories, foldOpt_Keywords, foldOpt_URL,
        foldOpt_MimeType, foldOpt_SWC, foldOpt_XEnv,
        htype, hname, hcomm, hicon, hpath, hcat, hkey, hurl, hmime, hswc,
        henvv, htermv, hhidv, hvexec]
      simp only [pair_snd,
        apply_ite (fun d : Dict => d (cs "Type")),
        apply_ite (fun d : Dict => d (cs "Name")),
        apply_ite (fun d : Dict => d (cs "Comment")),
        apply_ite (fun d : Dict => d (cs "Icon")),
        apply_ite (fun d : Dict => d (cs "Exec")),
        apply_ite (fun d : Dict => d (cs "Path")),
        apply_ite (fun d : Dict => d (cs "Terminal")),
        apply_ite (fun d : Dict => d (cs "Categories")),
        apply_ite (fun d : Dict => d (cs "Keywords")),
        apply_ite (fun d : Dict => d (cs "URL")),
        apply_ite (fun d : Dict => d (cs "MimeType")),
        apply_ite (fun d : Dict => d (cs "StartupWMClass")),
        apply_ite (fun d : Dict => d (cs "Hidden")),
        apply_ite (fun d : Dict => d (cs "X-Env-Vars")),
        upd, cs_eq_iff, emptyD]
      simp [htermb, hhidb, hunw, getD_opt, getD_opt', henv]
    · -- env-wrapped Exec line
      have hvo : envVarsOk e.env_vars = true := (henvimp henv).1
      have hhd : execHeadNoEq e.exec = true := (henvimp henv).2
      have hparts : envParts e.env_vars = pySplitOn ';' e.env_vars :=
        envParts_eq_splitOn _ hvo
      have hvcomp : valOk (cs "env " ++
          joinWith (cs " ") (pySplitOn ';' e.env_vars) ++ cs " " ++ e.exec) =
          true := execValue_valOk e.env_vars e.exec hvo hnorm hexec
      have hunwC : envUnwrap e.env_vars (cs "env " ++
          joinWith (cs " ") (pySplitOn ';' e.env_vars) ++ cs " " ++ e.exec) =
          e.exec := execValue_unwrap e.env_vars e.exec henv hvo hnorm hhd hexec
      have hunwC' : envUnwrap e.env_vars (cs "env " ++
          (joinWith (cs " ") (pySplitOn ';' e.env_vars) ++ (cs " " ++ e.exec))) =
          e.exec := by
        rw [show cs "env " ++
            (joinWith (cs " ") (pySplitOn ';' e.env_vars) ++ (cs " " ++ e.exec)) =
            cs "env " ++ joinWith (cs " ") (pySplitOn ';' e.env_vars) ++
              cs " " ++ e.exec by simp [List.append_assoc]]
        exact hunwC
      have hseg : (if !e.exec.isEmpty then
          (if !e.env_vars.isEmpty then
            (if !(envParts e.env_vars).isEmpty then
              [cs "Exec=env " ++ joinWith (cs " ") (envParts e.env_vars) ++
                cs " " ++ e.exec]
             else [cs "Exec=" ++ e.exec])
           else [cs "Exec=" ++ e.exec])
         else []) =
          [cs "Exec=env " ++ joinWith (cs " ") (pySplitOn ';' e.env_vars) ++
            cs " " ++ e.exec] := by
        rw [isEmpty_false_of_ne _ hexec, isEmpty_false_of_ne _ henv, hparts,
          isEmpty_false_of_ne _ (splitOn_ne_nil ';' e.env_vars)]
        rfl
      simp only [DesktopEntry.from_string, parsedDict, parseState, hlines,
        DesktopEntry.entryLines, hseg]
      rw [show cs "Type=" ++ e.entry_type = cs "Type" ++ '=' :: e.entry_type from rfl,
          show cs "Name=" ++ e.name = cs "Name" ++ '=' :: e.name from rfl,
          show cs "Comment=" ++ e.comment = cs "Comment" ++ '=' :: e.comment from rfl,
          show cs "Icon=" ++ e.icon = cs "Icon" ++ '=' :: e.icon from rfl,
          show cs "Exec=env " ++ joinWith (cs " ") (pySplitOn ';' e.env_vars) ++
              cs " " ++ e.exec =
            cs "Exec" ++ '=' :: (cs "env " ++
              joinWith (cs " ") (pySplitOn ';' e.env_vars) ++ cs " " ++ e.exec)
            from rfl,
          show cs "Path=" ++ e.path = cs "Path" ++ '=' :: e.path from rfl,
          show cs "Terminal=" ++ (if e.terminal then cs "true" else cs "false") =
            cs "Terminal" ++ '=' :: (if e.terminal then cs "true" else cs "false") from rfl,
          show cs "Categories=" ++ e.categories =
            cs "Categories" ++ '=' :: e.categories from rfl,
          show cs "Keywords=" ++ e.keywords =
            cs "Keywords" ++ '=' :: e.keywords from rfl,
          show cs "URL=" ++ e.url = cs "URL" ++ '=' :: e.url from rfl,
          show cs "MimeType=" ++ e.mime_type =
            cs "MimeType" ++ '=' :: e.mime_type from rfl,
          show cs "StartupWMClass=" ++ e.startup_wm_class =
            cs "StartupWMClass" ++ '=' :: e.startup_wm_class from rfl,
          show cs "Hidden=" ++ (if e.hidden then cs "true" else cs "false") =
            cs "Hidden" ++ '=' :: (if e.hidden then cs "true" else cs "false") from rfl,
          show cs "X-Env-Vars=" ++ e.env_vars =
            cs "X-Env-Vars" ++ '=' :: e.env_vars from rfl]
      simp only [List.foldl_append, List.foldl_nil, foldl_single, scanStep_header,
        pair_snd, scanField_Type, scanField_Name, scanField_Exec,
        scanField_Terminal, scanField_Hidden, foldOpt_Comment, foldOpt_Icon,
        foldOpt_Path, foldOpt_Categories, foldOpt_Keywords, foldOpt_URL,
        foldOpt_MimeType, foldOpt_SWC, foldOpt_XEnv,
        htype, hname, hcomm, hicon, hpath, hcat, hkey, hurl, hmime, hswc,
        henvv, htermv, hhidv, hvcomp]
      simp only [pair_snd,
        apply_ite (fun d : Dict => d (cs "Type")),
        apply_ite (fun d : Dict => d (cs "Name")),
        apply_ite (fun d : Dict => d (cs "Comment")),
        apply_ite (fun d : Dict => d (cs "Icon")),
        apply_ite (fun d : Dict => d (cs "Exec")),
        apply_ite (fun d : Dict => d (cs "Path")),
        apply_ite (fun d : Dict => d (cs "Terminal")),
        apply_ite (fun d : Dict => d (cs "Categories")),
        apply_ite (fun d : Dict => d (cs "Keywords")),
        apply_ite (fun d : Dict => d (cs "URL")),
        apply_ite (fun d : Dict => d (cs "MimeType")),
        apply_ite (fun d : Dict => d (cs "StartupWMClass")),
        apply_ite (fun d : Dict => d (cs "Hidden")),
        apply_ite (fun d : Dict => d (cs "X-Env-Vars")),
        upd, cs_eq_iff, emptyD]
      simp [htermb, hhidb, hunwC, hunwC', getD_opt, getD_opt',
        isEmpty_false_of_ne _ henv]

/-- C1: the claim as frozen is false on the code: for the well-typed
in-memory entry with `env_vars = "FOO"` (a token without `=`) and
`exec = "cmd"`, serializing produces `Exec=env FOO cmd`, re-parsing
strips nothing (the first token `FOO` has no `=`), so the command
becomes `FOO cmd` and the second serialization differs from the
first. -/
theorem c1_counterexample :
    ¬ ((DesktopEntry.from_string
        ({ name := cs "x", exec := cs "cmd",
           env_vars := cs "FOO" } : DesktopEntry).to_string
        none).to_string =
      ({ name := cs "x", exec := cs "cmd",
         env_vars := cs "FOO" } : DesktopEntry).to_string) := by
  decide

/-- C1 (amended): for every in-memory entry whose field values are
well-formed — free of line boundaries and edge whitespace, with a
whitespace-normalized command, and, when `env_vars` is non-empty, with
semicolon tokens that are whitespace-free `KEY=VALUE` pieces while the
command's first token contains no `=` — serializing, re-parsing and
serializing again yields exactly the first serialization. -/
theorem c1_serialize_parse_serialize (e : DesktopEntry) (h : wfEntry e)
    (fp : Option (List Char)) :
    (DesktopEntry.from_string e.to_string fp).to_string = e.to_string := by
  rw [from_string_to_string e h fp]
  rfl

/-- C1 witness: the amended round trip at a concrete entry. -/
theorem c1_serialize_parse_serialize_witness :
    wfEntry ({ name := cs "My App", exec := cs "mycommand --flag",
               env_vars := cs "FOO=1;BAR=2" } : DesktopEntry) ∧
    (DesktopEntry.from_string
      ({ name := cs "My App", exec := cs "mycommand --flag",
         env_vars := cs "FOO=1;BAR=2" } : DesktopEntry).to_string
      none).to_string =
    ({ name := cs "My App", exec := cs "mycommand --flag",
       env_vars := cs "FOO=1;BAR=2" } : DesktopEntry).to_string :=
  ⟨by decide, c1_serialize_parse_serialize _ (by decide) none⟩

/-- C2: whenever the effective `[Desktop Entry]` values of the input give
`Exec` the value `env FOO=1 BAR=2 mycommand --flag` and `X-Env-Vars` the
value `FOO=1;BAR=2`, parsing yields the command `mycommand --flag` (the
leading KEY=VALUE tokens after `env ` are stripped, the first token
without `=` marking the command start) and keeps `env_vars` verbatim. -/
theorem c2_parse_env_unwrap (content : List Char) (fp : Option (List Char))
    (hex : parsedDict content (cs "Exec") =
      some (cs "env FOO=1 BAR=2 mycommand --flag"))
    (hev : parsedDict content (cs "X-Env-Vars") = some (cs "FOO=1;BAR=2")) :
    (DesktopEntry.from_string content fp).exec = cs "mycommand --flag" ∧
    (DesktopEntry.from_string content fp).env_vars = cs "FOO=1;BAR=2" := by
  have h1 : (DesktopEntry.from_string content fp).exec =
      envUnwrap ((parsedDict content (cs "X-Env-Vars")).getD [])
        ((parsedDict content (cs "Exec")).getD []) := rfl
  have h2 : (DesktopEntry.from_string content fp).env_vars =
      (parsedDict content (cs "X-Env-Vars")).getD [] := rfl
  rw [h1, h2, hex, hev]
  exact ⟨by decide, by decide⟩

/-- C2 witness: the unwrap on a concrete desktop file text. -/
theorem c2_parse_env_unwrap_witness :
    parsedDict (cs "[Desktop Entry]\nName=T\nExec=env FOO=1 BAR=2 mycommand --flag\nX-Env-Vars=FOO=1;BAR=2\n")
      (cs "Exec") = some (cs "env FOO=1 BAR=2 mycommand --flag") ∧
    parsedDict (cs "[Desktop Entry]\nName=T\nExec=env FOO=1 BAR=2 mycommand --flag\nX-Env-Vars=FOO=1;BAR=2\n")
      (cs "X-Env-Vars") = some (cs "FOO=1;BAR=2") ∧
    (DesktopEntry.from_string
      (cs "[Desktop Entry]\nName=T\nExec=env FOO=1 BAR=2 mycommand --flag\nX-Env-Vars=FOO=1;BAR=2\n")
      none).exec = cs "mycommand --flag" ∧
    (DesktopEntry.from_string
      (cs "[Desktop Entry]\nName=T\nExec=env FOO=1 BAR=2 mycommand --flag\nX-Env-Vars=FOO=1;BAR=2\n")
      none).env_vars = cs "FOO=1;BAR=2" := by
  have h1 : parsedDict
      (cs "[Desktop Entry]\nName=T\nExec=env FOO=1 BAR=2 mycommand --flag\nX-Env-Vars=FOO=1;BAR=2\n")
      (cs "Exec") = some (cs "env FOO=1 BAR=2 mycommand --flag") := by decide
  have h2 : parsedDict
      (cs "[Desktop Entry]\nName=T\nExec=env FOO=1 BAR=2 mycommand --flag\nX-Env-Vars=FOO=1;BAR=2\n")
      (cs "X-Env-Vars") = some (cs "FOO=1;BAR=2") := by decide
  have h := c2_parse_env_unwrap _ none h1 h2
  exact ⟨h1, h2, h.1, h.2⟩

/-- C3: every entry whose `env_vars` is `FOO=1;BAR=2` and whose command
is `mycommand --flag` serializes with the line
`Exec=env FOO=1 BAR=2 mycommand --flag` among its emitted lines. -/
theorem c3_serialize_env_wrap (e : DesktopEntry)
    (hev : e.env_vars = cs "FOO=1;BAR=2")
    (hex : e.exec = cs "mycommand --flag") :
    cs "Exec=env FOO=1 BAR=2 mycommand --flag" ∈ e.entryLines := by
  have hseg : (if !(cs "mycommand --flag").isEmpty then
      (if !(cs "FOO=1;BAR=2").isEmpty then
        (if !(envParts (cs "FOO=1;BAR=2")).isEmpty then
          [cs "Exec=env " ++ joinWith (cs " ") (envParts (cs "FOO=1;BAR=2")) ++
            cs " " ++ cs "mycommand --flag"]
         else [cs "Exec=" ++ cs "mycommand --flag"])
       else [cs "Exec=" ++ cs "mycommand --flag"])
     else []) = [cs "Exec=env FOO=1 BAR=2 mycommand --flag"] := by decide
  simp only [DesktopEntry.entryLines, hev, hex, hseg]
  simp

/-- C3 witness: the wrapped Exec line on a concrete entry. -/
theorem c3_serialize_env_wrap_witness :
    ({ name := cs "T", exec := cs "mycommand --flag",
       env_vars := cs "FOO=1;BAR=2" } : DesktopEntry).env_vars =
      cs "FOO=1;BAR=2" ∧
    ({ name := cs "T", exec := cs "mycommand --flag",
       env_vars := cs "FOO=1;BAR=2" } : DesktopEntry).exec =
      cs "mycommand --flag" ∧
    cs "Exec=env FOO=1 BAR=2 mycommand --flag" ∈
      ({ name := cs "T", exec := cs "mycommand --flag",
         env_vars := cs "FOO=1;BAR=2" } : DesktopEntry).entryLines :=
  ⟨rfl, rfl, c3_serialize_env_wrap _ rfl rfl⟩

/-- C4: parsing is a total function of the input text, and every field
omitted from the effective `[Desktop Entry]` values gets its default:
`Unnamed` for Name, `Application` for Type, the booleans are true
exactly when the (lowercased) stored value is the literal `true` (hence
false when absent), and every other textual field is empty when its key
is absent. -/
theorem c4_parse_total_defaults (content : List Char) (fp : Option (List Char)) :
    (parsedDict content (cs "Name") = none →
      (DesktopEntry.from_string content fp).name = cs "Unnamed") ∧
    (parsedDict content (cs "Type") = none →
      (DesktopEntry.from_string content fp).entry_type = cs "Application") ∧
    ((DesktopEntry.from_string content fp).terminal = true ↔
      pyLower ((parsedDict content (cs "Terminal")).getD []) = cs "true") ∧
    ((DesktopEntry.from_string content fp).hidden = true ↔
      pyLower ((parsedDict content (cs "Hidden")).getD []) = cs "true") ∧
    (parsedDict content (cs "Comment") = none →
      (DesktopEntry.from_string content fp).comment = []) ∧
    (parsedDict content (cs "Icon") = none →
      (DesktopEntry.from_string content fp).icon = []) ∧
    (parsedDict content (cs "Path") = none →
      (DesktopEntry.from_string content fp).path = []) ∧
    (parsedDict content (cs "Categories") = none →
      (DesktopEntry.from_string content fp).categories = []) ∧
    (parsedDict content (cs "Keywords") = none →
      (DesktopEntry.from_string content fp).keywords = []) ∧
    (parsedDict content (cs "URL") = none →
      (DesktopEntry.from_string content fp).url = []) ∧
    (parsedDict content (cs "MimeType") = none →
      (DesktopEntry.from_string content fp).mime_type = []) ∧
    (parsedDict content (cs "StartupWMClass") = none →
      (DesktopEntry.from_string content fp).startup_wm_class = []) ∧
    (parsedDict content (cs "X-Env-Vars") = none →
      (DesktopEntry.from_string content fp).env_vars = []) ∧
    (parsedDict content (cs "Exec") = none →
      (DesktopEntry.from_string content fp).exec = []) := by
  have hbeg : begins (cs "env ") [] = false := by decide
  refine ⟨?_, ?_, ?_, ?_, ?_, ?_, ?_, ?_, ?_, ?_, ?_, ?_, ?_, ?_⟩
  · intro h
    show (parsedDict content (cs "Name")).getD (cs "Unnamed") = cs "Unnamed"
    rw [h]; rfl
  · intro h
    show (parsedDict content (cs "Type")).getD (cs "Application") =
      cs "Application"
    rw [h]; rfl
  · show decide (pyLower ((parsedDict content (cs "Terminal")).getD []) =
      cs "true") = true ↔ _
    exact decide_eq_true_iff
  · show decide (pyLower ((parsedDict content (cs "Hidden")).getD []) =
      cs "true") = true ↔ _
    exact decide_eq_true_iff
  · intro h
    show (parsedDict content (cs "Comment")).getD [] = []
    rw [h]; rfl
  · intro h
    show (parsedDict content (cs "Icon")).getD [] = []
    rw [h]; rfl
  · intro h
    show (parsedDict content (cs "Path")).getD [] = []
    rw [h]; rfl
  · intro h
    show (parsedDict content (cs "Categories")).getD [] = []
    rw [h]; rfl
  · intro h
    show (parsedDict content (cs "Keywords")).getD [] = []
    rw [h]; rfl
  · intro h
    show (parsedDict content (cs "URL")).getD [] = []
    rw [h]; rfl
  · intro h
    show (parsedDict content (cs "MimeType")).getD [] = []
    rw [h]; rfl
  · intro h
    show (parsedDict content (cs "StartupWMClass")).getD [] = []
    rw [h]; rfl
  · intro h
    show (parsedDict content (cs "X-Env-Vars")).getD [] = []
    rw [h]; rfl
  · intro h
    show envUnwrap ((parsedDict content (cs "X-Env-Vars")).getD [])
      ((parsedDict content (cs "Exec")).getD []) = []
    rw [h]
    simp [envUnwrap, hbeg]

/-- C4 witness: the defaults on the empty input text. -/
theorem c4_parse_total_defaults_witness :
    parsedDict (cs "") (cs "Name") = none ∧
    (DesktopEntry.from_string (cs "") none).name = cs "Unnamed" ∧
    parsedDict (cs "") (cs "Type") = none ∧
    (DesktopEntry.from_string (cs "") none).entry_type = cs "Application" ∧
    (DesktopEntry.from_string (cs "") none).terminal = false ∧
    parsedDict (cs "") (cs "Exec") = none ∧
    (DesktopEntry.from_string (cs "") none).exec = [] := by
  have h := c4_parse_total_defaults (cs "") none
  have h1 : parsedDict (cs "") (cs "Name") = none := by decide
  have h2 : parsedDict (cs "") (cs "Type") = none := by decide
  have h3 : parsedDict (cs "") (cs "Exec") = none := by decide
  exact ⟨h1, h.1 h1, h2, h.2.1 h2, by decide, h3,
    h.2.2.2.2.2.2.2.2.2.2.2.2.2 h3⟩

/-- C10: when `X-Env-Vars` is present and the raw command starts with
`env `, the unwrap re-joins the whitespace tokens of the remainder with
single spaces after dropping the tokens before the first one without an
`=`; in particular, when every token contains an `=` nothing is dropped
and the result is all of those tokens joined by single spaces. -/
theorem c10_unwrap_all_eq_tokens (ev ec : List Char) (hev : ev ≠ [])
    (hpre : begins (cs "env ") ec = true) :
    ((∀ p ∈ pySplitWs (ec.drop 4), p.contains '=' = true) →
      envUnwrap ev ec = joinWith (cs " ") (pySplitWs (ec.drop 4))) ∧
    envUnwrap ev ec =
      joinWith (cs " ")
        ((pySplitWs (ec.drop 4)).drop
          ((firstNoEq (pySplitWs (ec.drop 4))).getD 0)) := by
  have hcond : (!ev.isEmpty && begins (cs "env ") ec) = true := by
    rw [isEmpty_false_of_ne ev hev, hpre]
    rfl
  constructor
  · intro hall
    simp only [envUnwrap, hcond, if_true]
    rw [firstNoEq_none _ hall]
    rfl
  · simp only [envUnwrap, hcond, if_true]

/-- C10 witness: a command of pure KEY=VALUE tokens with a run of
whitespace is re-joined whole, with the run collapsed. -/
theorem c10_unwrap_all_eq_tokens_witness :
    (cs "A=1" ≠ []) ∧
    begins (cs "env ") (cs "env A=1  B=2") = true ∧
    (∀ p ∈ pySplitWs ((cs "env A=1  B=2").drop 4), p.contains '=' = true) ∧
    envUnwrap (cs "A=1") (cs "env A=1  B=2") = cs "A=1 B=2" := by
  have h := c10_unwrap_all_eq_tokens (cs "A=1") (cs "env A=1  B=2")
    (by decide) (by decide)
  refine ⟨by decide, by decide, by decide, ?_⟩
  rw [h.1 (by decide)]
  decide

theorem pyStrip_subset (l : List Char) : ∀ c ∈ pyStrip l, c ∈ l := by
  intro c hc
  rw [pyStrip] at hc
  rw [List.mem_reverse] at hc
  have h1 := (List.dropWhile_sublist (l := (lstripPy l).reverse)
    (p := isPySpace)).subset hc
  rw [List.mem_reverse] at h1
  exact (List.dropWhile_sublist (l := l) (p := isPySpace)).subset h1

theorem splitOn_chars (sep : Char) :
    ∀ l : List Char, ∀ t ∈ pySplitOn sep l, ∀ c ∈ t, c ∈ l := by
  intro l
  induction l with
  | nil =>
    intro t ht c hc
    rw [show pySplitOn sep [] = [[]] from rfl, List.mem_singleton] at ht
    subst ht
    exact absurd hc (List.not_mem_nil c)
  | cons a rest ih =>
    intro t ht c hc
    by_cases ha : (a == sep) = true
    · rw [show pySplitOn sep (a :: rest) = [] :: pySplitOn sep rest by
        simp [pySplitOn, ha], List.mem_cons] at ht
      rcases ht with rfl | ht
      · exact absurd hc (List.not_mem_nil c)
      · exact List.mem_cons_of_mem a (ih t ht c hc)
    · cases hrec : pySplitOn sep rest with
      | nil => exact absurd hrec (splitOn_ne_nil sep rest)
      | cons t0 ts =>
        rw [show pySplitOn sep (a :: rest) = (a :: t0) :: ts by
          simp [pySplitOn, ha, hrec], List.mem_cons] at ht
        rcases ht with rfl | ht
        · rcases List.mem_cons.mp hc with rfl | hc2
          · exact List.mem_cons_self c rest
          · exact List.mem_cons_of_mem a
              (ih t0 (by rw [hrec]; exact List.mem_cons_self t0 ts) c hc2)
        · exact List.mem_cons_of_mem a
            (ih t (by rw [hrec]; exact List.mem_cons_of_mem t0 ht) c hc)

theorem envParts_chars (ev : List Char) :
    ∀ t ∈ envParts ev, ∀ c ∈ t, c ∈ ev := by
  intro t ht c hc
  rw [envParts] at ht
  have ht2 := List.mem_of_mem_filter ht
  rw [List.mem_map] at ht2
  obtain ⟨t', ht', rfl⟩ := ht2
  exact splitOn_chars ';' ev t' ht' c (pyStrip_subset t' c hc)

theorem envParts_nonterm (ev : List Char)
    (h : ev.all (fun c => !isLineTerm c) = true) :
    ∀ t ∈ envParts ev, t.all (fun c => !isLineTerm c) = true := by
  intro t ht
  rw [List.all_eq_true] at h ⊢
  exact fun c hc => h c (envParts_chars ev t ht c hc)

theorem line_nonterm_all (k v : List Char)
    (hk : k.all (fun c => !isLineTerm c) = true)
    (hv : v.all (fun c => !isLineTerm c) = true) :
    (k ++ v).all (fun c => !isLineTerm c) = true := by
  rw [List.all_append, hk, hv]
  rfl

theorem entryLines_nonterm_all (e : DesktopEntry)
    (hterm : ∀ v ∈ [e.name, e.entry_type, e.comment, e.icon, e.path,
        e.categories, e.keywords, e.url, e.mime_type, e.startup_wm_class,
        e.env_vars, e.exec],
      v.all (fun c => !isLineTerm c) = true) :
    ∀ l ∈ e.entryLines, l.all (fun c => !isLineTerm c) = true := by
  have hname := hterm e.name (by simp)
  have htype := hterm e.entry_type (by simp)
  have hcomm := hterm e.comment (by simp)
  have hicon := hterm e.icon (by simp)
  have hpath := hterm e.path (by simp)
  have hcat := hterm e.categories (by simp)
  have hkey := hterm e.keywords (by simp)
  have hurl := hterm e.url (by simp)
  have hmime := hterm e.mime_type (by simp)
  have hswc := hterm e.startup_wm_class (by simp)
  have henvv := hterm e.env_vars (by simp)
  have hexec := hterm e.exec (by simp)
  intro l hl
  simp only [DesktopEntry.entryLines, List.mem_append, List.mem_singleton] at hl
  rcases hl with ((((((((((((((h|h)|h)|h)|h)|h)|h)|h)|h)|h)|h)|h)|h)|h)|h)
  · subst h; decide
  · subst h; exact line_nonterm_all _ _ (by decide) htype
  · subst h; exact line_nonterm_all _ _ (by decide) hname
  · rw [mem_opt h]; exact line_nonterm_all _ _ (by decide) hcomm
  · rw [mem_opt h]; exact line_nonterm_all _ _ (by decide) hicon
  · by_cases hc1 : (!e.exec.isEmpty) = true
    · rw [if_pos hc1] at h
      by_cases hc2 : (!e.env_vars.isEmpty) = true
      · rw [if_pos hc2] at h
        by_cases hc3 : (!(envParts e.env_vars).isEmpty) = true
        · rw [if_pos hc3] at h
          rw [List.mem_singleton.mp h]
          have hjoin : (joinWith (cs " ") (envParts e.env_vars)).all
              (fun c => !isLineTerm c) = true :=
            join_all _ _ _ (by decide) (envParts_nonterm e.env_vars henvv)
          rw [show cs "Exec=env " ++ joinWith (cs " ") (envParts e.env_vars) ++
              cs " " ++ e.exec =
              cs "Exec=env " ++ (joinWith (cs " ") (envParts e.env_vars) ++
                (cs " " ++ e.exec)) by simp [List.append_assoc]]
          exact line_nonterm_all _ _ (by decide)
            (line_nonterm_all _ _ hjoin (line_nonterm_all _ _ (by decide) hexec))
        · rw [if_neg hc3] at h
          rw [List.mem_singleton.mp h]
          exact line_nonterm_all _ _ (by decide) hexec
      · rw [if_neg hc2] at h
        rw [List.mem_singleton.mp h]
        exact line_nonterm_all _ _ (by decide) hexec
    · rw [if_neg hc1] at h
      exact absurd h (List.not_mem_nil l)
  · rw [mem_opt h]; exact line_nonterm_all _ _ (by decide) hpath
  · subst h
    cases e.terminal with
    | false => decide
    | true => decide
  · rw [mem_opt h]; exact line_nonterm_all _ _ (by decide) hcat
  · rw [mem_opt h]; exact line_nonterm_all _ _ (by decide) hkey
  · rw [mem_opt h]; exact line_nonterm_all _ _ (by decide) hurl
  · rw [mem_opt h]; exact line_nonterm_all _ _ (by decide) hmime
  · rw [mem_opt h]; exact line_nonterm_all _ _ (by decide) hswc
  · subst h
    cases e.hidden with
    | false => decide
    | true => decide
  · rw [mem_opt h]; exact line_nonterm_all _ _ (by decide) henvv

theorem specOpt_eq (k v : List Char) :
    specOpt k v = if !v.isEmpty then [k ++ cs "=" ++ v] else [] := by
  cases h : v.isEmpty with
  | false => simp [specOpt, h]
  | true => simp [specOpt, h]

theorem exec_seg_eq (e : DesktopEntry) :
    (if !e.exec.isEmpty then
      (if !e.env_vars.isEmpty then
        (if !(envParts e.env_vars).isEmpty then
          [cs "Exec=env " ++ joinWith (cs " ") (envParts e.env_vars) ++
            cs " " ++ e.exec]
         else [cs "Exec=" ++ e.exec])
       else [cs "Exec=" ++ e.exec])
     else []) =
    (if !(specExecValue e).isEmpty then
      [cs "Exec" ++ cs "=" ++ specExecValue e] else []) := by
  by_cases h1 : e.exec = []
  · simp [specExecValue, h1]
  · have hx1 : e.exec.isEmpty = false := isEmpty_false_of_ne _ h1
    by_cases h2 : e.env_vars = []
    · have hspec : specExecValue e = e.exec := by
        rw [specExecValue, if_neg (by simp [hx1]), if_pos (by simp [h2])]
      rw [hspec, if_pos (by simp [hx1]), if_neg (by simp [h2]),
        if_pos (by simp [hx1])]
      rfl
    · have hx2 : e.env_vars.isEmpty = false := isEmpty_false_of_ne _ h2
      by_cases h3 : envParts e.env_vars = []
      · have hspec : specExecValue e = e.exec := by
          rw [specExecValue, if_neg (by simp [hx1]), if_neg (by simp [hx2]),
            if_pos (by simp [h3])]
        rw [hspec, if_pos (by simp [hx1]), if_pos (by simp [hx2]),
          if_neg (by simp [h3]), if_pos (by simp [hx1])]
        rfl
      · have hx3 : (envParts e.env_vars).isEmpty = false :=
          isEmpty_false_of_ne _ h3
        have hval : cs "env " ++ joinWith (cs " ") (envParts e.env_vars) ++
            cs " " ++ e.exec ≠ [] := by
          intro hh
          simp only [List.append_eq_nil] at hh
          exact absurd hh.1.1.1 (by decide)
        have hspec : specExecValue e = cs "env " ++
            joinWith (cs " ") (envParts e.env_vars) ++ cs " " ++ e.exec := by
          rw [specExecValue, if_neg (by simp [hx1]), if_neg (by simp [hx2]),
            if_neg (by simp [hx3])]
        have hv2 : (cs "env " ++ joinWith (cs " ") (envParts e.env_vars) ++
            cs " " ++ e.exec).isEmpty = false := isEmpty_false_of_ne _ hval
        rw [hspec, if_pos (by simp [hx1]), if_pos (by simp [hx2]),
          if_pos (by simp [hx3]), if_pos (by rw [hv2]; rfl)]
        rfl

theorem entryLines_eq_spec (e : DesktopEntry) :
    e.entryLines = specSerializeLines e := by
  simp only [DesktopEntry.entryLines, specSerializeLines, specOpt_eq]
  rw [exec_seg_eq e]
  rfl

theorem getLast_cons_of_ne {α : Type} (c : α) (l : List α) (h : l ≠ []) :
    (c :: l).getLast? = l.getLast? := by
  cases l with
  | nil => exact absurd rfl h
  | cons a as => rfl

theorem getLast_append_right {α : Type} (x y : List α) (hy : y ≠ []) :
    (x ++ y).getLast? = y.getLast? := by
  induction x with
  | nil => rfl
  | cons c x' ih =>
    rw [List.cons_append, getLast_cons_of_ne c (x' ++ y) (by simp [hy]), ih]

theorem getLast_some_of_ne {α : Type} (l : List α) (h : l ≠ []) :
    ∃ a, l.getLast? = some a ∧ a ∈ l := by
  induction l with
  | nil => exact absurd rfl h
  | cons c rest ih =>
    by_cases hr : rest = []
    · subst hr
      exact ⟨c, rfl, by simp⟩
    · obtain ⟨b, hb, hbm⟩ := ih hr
      exact ⟨b, by rw [getLast_cons_of_ne c rest hr, hb],
        List.mem_cons_of_mem c hbm⟩

theorem getLast_join_last (sep L : List Char) (hL : L ≠ []) :
    ∀ ls : List (List Char),
      (joinWith sep (ls ++ [L])).getLast? = L.getLast? := by
  intro ls
  induction ls with
  | nil => rfl
  | cons l ls' ih =>
    cases hsplit : ls' ++ [L] with
    | nil => exact absurd hsplit (by simp)
    | cons u us =>
      rw [List.cons_append, hsplit, joinWith_cons2]
      have hjoin_ne : joinWith sep (u :: us) ≠ [] := by
        have h2 := ih
        rw [hsplit] at h2
        obtain ⟨a, ha, _⟩ := getLast_some_of_ne L hL
        intro hnil
        rw [hnil] at h2
        rw [ha] at h2
        exact Option.noConfusion h2
      rw [getLast_append_right _ _ hjoin_ne, ← hsplit, ih]

/-- C5: the claim as frozen is false on the code: a field value may
itself contain a line boundary, in which case the serialized text's
lines are not the claimed sequence.  With `name = "a\nb"` the text has
six lines (`Name=a` followed by a stray `b`) instead of the five
claimed ones. -/
theorem c5_counterexample :
    ¬ (pySplitlines ({ name := cs "a\nb" } : DesktopEntry).to_string =
        specSerializeLines ({ name := cs "a\nb" } : DesktopEntry) ∧
      ({ name := cs "a\nb" } : DesktopEntry).to_string.getLast? = some '\n' ∧
      (({ name := cs "a\nb" } : DesktopEntry).to_string.dropLast).getLast? ≠
        some '\n') := by
  decide

/-- C5 (amended): for every entry whose field values contain no line
boundary characters, the serialized text's lines are exactly the
sequence `[Desktop Entry]`, Type, Name, Comment?, Icon?, Exec?, Path?,
Terminal, Categories?, Keywords?, URL?, MimeType?, StartupWMClass?,
Hidden, X-Env-Vars? with the `?`-fields omitted when empty and the
booleans emitted as literal `true`/`false`, and the text ends with
exactly one trailing newline. -/
theorem c5_serialize_shape (e : DesktopEntry)
    (hterm : ∀ v ∈ [e.name, e.entry_type, e.comment, e.icon, e.path,
        e.categories, e.keywords, e.url, e.mime_type, e.startup_wm_class,
        e.env_vars, e.exec], v.all (fun c => !isLineTerm c) = true) :
    pySplitlines e.to_string = specSerializeLines e ∧
    e.to_string.getLast? = some '\n' ∧
    (e.to_string.dropLast).getLast? ≠ some '\n' := by
  have hlnt := entryLines_nonterm_all e hterm
  have hlines : pySplitlines e.to_string = e.entryLines := by
    rw [DesktopEntry.to_string]
    exact pySplitlines_join _ (by simp [DesktopEntry.entryLines]) hlnt
  refine ⟨by rw [hlines, entryLines_eq_spec], ?_, ?_⟩
  · rw [DesktopEntry.to_string, show (cs "\n") = ['\n'] from rfl,
      getLast_append_right _ _ (by simp)]
    rfl
  · rw [DesktopEntry.to_string, show (cs "\n") = ['\n'] from rfl,
      List.dropLast_concat]
    by_cases henv : e.env_vars = []
    · have hseg : (if !e.env_vars.isEmpty then
          [cs "X-Env-Vars=" ++ e.env_vars] else []) =
          ([] : List (List Char)) := by
        rw [henv]
        rfl
      simp only [DesktopEntry.entryLines, hseg, List.append_nil]
      have hne : cs "Hidden=" ++
          (if e.hidden then cs "true" else cs "false") ≠ [] := by
        intro hh
        simp only [List.append_eq_nil] at hh
        exact absurd hh.1 (by decide)
      rw [getLast_join_last _ _ hne _]
      cases e.hidden with
      | false => decide
      | true => decide
    · have hseg : (if !e.env_vars.isEmpty then
          [cs "X-Env-Vars=" ++ e.env_vars] else []) =
          [cs "X-Env-Vars=" ++ e.env_vars] := by
        rw [isEmpty_false_of_ne _ henv]
        rfl
      simp only [DesktopEntry.entryLines, hseg]
      have hne : cs "X-Env-Vars=" ++ e.env_vars ≠ [] := by
        intro hh
        simp only [List.append_eq_nil] at hh
        exact absurd hh.1 (by decide)
      rw [getLast_join_last _ _ hne _, getLast_append_right _ _ henv]
      intro hcontra
      obtain ⟨a, ha, ham⟩ := getLast_some_of_ne e.env_vars henv
      rw [ha] at hcontra
      have ha2 : a = '\n' := Option.some.inj hcontra
      subst ha2
      have henvt := hterm e.env_vars (by simp)
      rw [List.all_eq_true] at henvt
      have hbad := henvt '\n' ham
      exact absurd hbad (by decide)

/-- C5 witness: the line sequence and single trailing newline on a
concrete entry. -/
theorem c5_serialize_shape_witness :
    (∀ v ∈ [cs "My App", cs "Application",
            cs "", cs "", cs "", cs "", cs "", cs "", cs "", cs "",
            cs "A=1", cs "run"],
      v.all (fun c => !isLineTerm c) = true) ∧
    pySplitlines
        ({ name := cs "My App", exec := cs "run", env_vars := cs "A=1" } :
          DesktopEntry).to_string =
      specSerializeLines
        ({ name := cs "My App", exec := cs "run", env_vars := cs "A=1" } :
          DesktopEntry) ∧
    ({ name := cs "My App", exec := cs "run", env_vars := cs "A=1" } :
        DesktopEntry).to_string.getLast? =
      some '\n' := by
  have h := c5_serialize_shape
    ({ name := cs "My App", exec := cs "run", env_vars := cs "A=1" } :
      DesktopEntry) (by decide)
  exact ⟨by decide, h.1, h.2.1⟩

/-- C8: loading returns exactly the entries of the enumerated files
whose contents the filesystem can produce, in enumeration order; a file
that cannot be read is skipped and, the model being a total function,
no exception escapes. -/
theorem c8_load_all_skips (fs : Dict) (userEx : Bool)
    (userNames : List (List Char)) (sysEx : Bool) (sysNames : List (List Char))
    (home : List Char) :
    load_all_entries fs userEx userNames sysEx sysNames home =
    ((get_all_desktop_files userEx userNames sysEx sysNames home).filter
        (fun pf => (fs pf.1).isSome)).map
      (fun pf => DesktopEntry.from_string ((fs pf.1).getD []) (some pf.1)) := by
  rw [load_all_entries]
  generalize get_all_desktop_files userEx userNames sysEx sysNames home = files
  induction files with
  | nil => rfl
  | cons pf rest ih =>
    cases hfs : fs pf.1 with
    | none =>
      rw [show load_entries_from fs (pf :: rest) = load_entries_from fs rest by
        simp [load_entries_from, hfs], ih, List.filter_cons]
      simp [hfs]
    | some content =>
      rw [show load_entries_from fs (pf :: rest) =
          DesktopEntry.from_string content (some pf.1) ::
            load_entries_from fs rest by
        simp [load_entries_from, hfs], ih, List.filter_cons]
      simp [hfs]

/-- C9: saving an entry with no stored path and no explicit path writes
the serialized text under the user applications directory at the
filename derived from the lowercased name with spaces replaced by
hyphens plus `.desktop`, records that path on the returned entry, and
touches no other path. -/
theorem c9_save_derives_filename (e : DesktopEntry) (home : List Char)
    (fs : Dict) (h : e.file_path = none) :
    (e.save none home fs).1 =
      joinPath (get_user_applications_dir home)
        (pyReplaceChar ' ' '-' (pyLower e.name) ++ cs ".desktop") ∧
    (e.save none home fs).2.1 =
      { e with file_path := some (e.save none home fs).1 } ∧
    (e.save none home fs).2.2 (e.save none home fs).1 = some e.to_string ∧
    (∀ q, q ≠ (e.save none home fs).1 →
      (e.save none home fs).2.2 q = fs q) := by
  refine ⟨?_, ?_, ?_, ?_⟩
  · simp only [DesktopEntry.save, h]
  · simp only [DesktopEntry.save, h]
  · simp only [DesktopEntry.save, h]
    simp [upd]
  · intro q hq
    simp only [DesktopEntry.save, h]
    simp only [DesktopEntry.save, h] at hq
    simp [upd, hq]

/-- C9 witness: saving a fresh entry named `My App` writes to
`<home>/.local/share/applications/my-app.desktop`. -/
theorem c9_save_derives_filename_witness :
    ({ name := cs "My App" } : DesktopEntry).file_path = none ∧
    (({ name := cs "My App" } : DesktopEntry).save none (cs "/home/u")
        emptyD).1 =
      cs "/home/u/.local/share/applications/my-app.desktop" ∧
    (({ name := cs "My App" } : DesktopEntry).save none (cs "/home/u")
        emptyD).2.1.file_path =
      some (cs "/home/u/.local/share/applications/my-app.desktop") := by
  have h := c9_save_derives_filename ({ name := cs "My App" } : DesktopEntry)
    (cs "/home/u") emptyD rfl
  have hpath : (({ name := cs "My App" } : DesktopEntry).save none
      (cs "/home/u") emptyD).1 =
      cs "/home/u/.local/share/applications/my-app.desktop" :=
    h.1.trans (by decide)
  exact ⟨rfl, hpath, by rw [h.2.1, hpath]⟩

/-- C6: the delete guard is the substring test `".local" in str(path)`,
not a user-directory check, so a system entry whose filename happens to
contain `.local` is deleted: with
`/usr/share/applications/chat.local.desktop` on disk — a path that lies
under no user applications directory, whatever the home directory is —
the action unlinks the file instead of failing.  A plain system path is
rejected with the not-writable outcome and the file is kept, as the
claim describes. -/
theorem c6_delete_substring_bug :
    action_delete [cs "/usr/share/applications/chat.local.desktop"]
      (some { name := cs "Chat",
              file_path :=
                some (cs "/usr/share/applications/chat.local.desktop") }) =
      (DeleteOutcome.deleted, []) ∧
    (∀ home : List Char,
      begins (get_user_applications_dir home ++ cs "/")
        (cs "/usr/share/applications/chat.local.desktop") = false) ∧
    action_delete [cs "/usr/share/applications/firefox.desktop"]
      (some { name := cs "F",
              file_path :=
                some (cs "/usr/share/applications/firefox.desktop") }) =
      (DeleteOutcome.notWritable,
        [cs "/usr/share/applications/firefox.desktop"]) := by
  refine ⟨by decide, ?_, by decide⟩
  intro home
  cases hb : begins (get_user_applications_dir home ++ cs "/")
      (cs "/usr/share/applications/chat.local.desktop") with
  | false => rfl
  | true =>
    exfalso
    have h3 : get_user_applications_dir home ++ cs "/" =
        home ++ (cs "/.local/share/applications" ++ cs "/") := by
      rw [get_user_applications_dir, List.append_assoc]
    rw [h3] at hb
    have h2 := hasSub_of_begins_append home
      (cs "/.local/share/applications" ++ cs "/")
      (cs "/usr/share/applications/chat.local.desktop") hb
    exact absurd h2 (by decide)

theorem lexLe_total : ∀ a b : List Char, lexLe a b = true ∨ lexLe b a = true := by
  intro a
  induction a with
  | nil => intro b; left; rfl
  | cons x xs ih =>
    intro b
    cases b with
    | nil => right; rfl
    | cons y ys =>
      by_cases h1 : x.toNat < y.toNat
      · left
        simp [lexLe, h1]
      · by_cases h2 : y.toNat < x.toNat
        · right
          simp [lexLe, h2]
        · rcases ih ys with h | h
          · left
            simp [lexLe, h1, h2, h]
          · right
            simp [lexLe, h1, h2, h]

theorem lexLe_trans : ∀ a b c : List Char,
    lexLe a b = true → lexLe b c = true → lexLe a c = true := by
  intro a
  induction a with
  | nil => intro b c _ _; rfl
  | cons x xs ih =>
    intro b c hab hbc
    cases b with
    | nil => exact absurd hab (by simp [lexLe])
    | cons y ys =>
      cases c with
      | nil => exact absurd hbc (by simp [lexLe])
      | cons z zs =>
        simp only [lexLe] at hab hbc ⊢
        split_ifs at hab hbc ⊢ <;>
          first
            | rfl
            | exact ih ys zs hab hbc
            | exact Bool.noConfusion hab
            | exact Bool.noConfusion hbc
            | omega

theorem mem_insOne (x : List Char × Bool) :
    ∀ l z, z ∈ insOne x l ↔ z = x ∨ z ∈ l := by
  intro l
  induction l with
  | nil => intro z; simp [insOne]
  | cons y ys ih =>
    intro z
    by_cases h : lexLe (sortKey y) (sortKey x) = true
    · rw [show insOne x (y :: ys) = y :: insOne x ys by simp [insOne, h]]
      rw [List.mem_cons, ih z, List.mem_cons]
      constructor
      · rintro (rfl | hz | hz)
        · exact Or.inr (Or.inl rfl)
        · exact Or.inl hz
        · exact Or.inr (Or.inr hz)
      · rintro (rfl | rfl | hz)
        · exact Or.inr (Or.inl rfl)
        · exact Or.inl rfl
        · exact Or.inr (Or.inr hz)
    · rw [show insOne x (y :: ys) = x :: y :: ys by simp [insOne, h]]
      simp

theorem insOne_perm (x : List Char × Bool) :
    ∀ l, List.Perm (insOne x l) (x :: l) := by
  intro l
  induction l with
  | nil => exact List.Perm.refl _
  | cons y ys ih =>
    by_cases h : lexLe (sortKey y) (sortKey x) = true
    · rw [show insOne x (y :: ys) = y :: insOne x ys by simp [insOne, h]]
      exact (List.Perm.cons y ih).trans (List.Perm.swap x y ys)
    · rw [show insOne x (y :: ys) = x :: y :: ys by simp [insOne, h]]

theorem insOne_sorted (x : List Char × Bool) :
    ∀ l, List.Pairwise (fun a b => lexLe (sortKey a) (sortKey b) = true) l →
      List.Pairwise (fun a b => lexLe (sortKey a) (sortKey b) = true)
        (insOne x l) := by
  intro l
  induction l with
  | nil => intro _; simp [insOne]
  | cons y ys ih =>
    intro hp
    rw [List.pairwise_cons] at hp
    by_cases h : lexLe (sortKey y) (sortKey x) = true
    · rw [show insOne x (y :: ys) = y :: insOne x ys by simp [insOne, h]]
      rw [List.pairwise_cons]
      refine ⟨?_, ih hp.2⟩
      intro z hz
      rcases (mem_insOne x ys z).mp hz with rfl | hz2
      · exact h
      · exact hp.1 z hz2
    · rw [show insOne x (y :: ys) = x :: y :: ys by simp [insOne, h]]
      rw [List.pairwise_cons]
      have hxy : lexLe (sortKey x) (sortKey y) = true := by
        rcases lexLe_total (sortKey x) (sortKey y) with h1 | h1
        · exact h1
        · exact absurd h1 h
      refine ⟨?_, List.pairwise_cons.mpr hp⟩
      intro z hz
      rcases List.mem_cons.mp hz with rfl | hz2
      · exact hxy
      · exact lexLe_trans _ _ _ hxy (hp.1 z hz2)

theorem sortFoldl_perm :
    ∀ (l acc : List (List Char × Bool)),
      List.Perm (List.foldl (fun acc x => insOne x acc) acc l) (acc ++ l) := by
  intro l
  induction l with
  | nil => intro acc; simp
  | cons x xs ih =>
    intro acc
    have h1 := ih (insOne x acc)
    have h2 : List.Perm (insOne x acc ++ xs) ((x :: acc) ++ xs) :=
      (insOne_perm x acc).append_right xs
    have h3 : List.Perm ((x :: acc) ++ xs) (acc ++ x :: xs) := by
      rw [List.cons_append]
      exact List.perm_middle.symm
    exact (h1.trans h2).trans h3

theorem sortFiles_perm (l : List (List Char × Bool)) :
    List.Perm (sortFiles l) l := sortFoldl_perm l []

theorem sortFoldl_sorted :
    ∀ (l acc : List (List Char × Bool)),
      List.Pairwise (fun a b => lexLe (sortKey a) (sortKey b) = true) acc →
      List.Pairwise (fun a b => lexLe (sortKey a) (sortKey b) = true)
        (List.foldl (fun acc x => insOne x acc) acc l) := by
  intro l
  induction l with
  | nil => intro acc h; exact h
  | cons x xs ih =>
    intro acc h
    exact ih (insOne x acc) (insOne_sorted x acc h)

theorem sortFiles_sorted (l : List (List Char × Bool)) :
    List.Pairwise (fun a b => lexLe (sortKey a) (sortKey b) = true)
      (sortFiles l) :=
  sortFoldl_sorted l [] List.Pairwise.nil

theorem takeWhile_append_all {α : Type} (p : α → Bool) :
    ∀ a b : List α, (∀ x ∈ a, p x = true) →
      (a ++ b).takeWhile p = a ++ b.takeWhile p := by
  intro a
  induction a with
  | nil => intro b _; rfl
  | cons c a' ih =>
    intro b h
    rw [List.cons_append, List.takeWhile_cons, h c (by simp),
      ih b (fun x hx => h x (by simp [hx])), List.cons_append]
    simp

theorem baseName_joinPath (dir n : List Char) (h : ('/' : Char) ∉ n) :
    baseName (joinPath dir n) = n := by
  rw [baseName, joinPath, List.append_assoc, List.reverse_append,
    List.reverse_append, List.append_assoc]
  rw [takeWhile_append_all _ n.reverse _ (fun x hx => by
    rw [List.mem_reverse] at hx
    simp only [Bool.not_eq_true']
    rw [beq_eq_false_iff_ne]
    intro hh
    exact h (hh ▸ hx))]
  rw [show (((cs "/").reverse ++ dir.reverse).takeWhile
      fun c => !(c == '/')) = [] by
    rw [show (cs "/").reverse = ['/'] from rfl]
    simp [List.takeWhile_cons]]
  rw [List.append_nil, List.reverse_reverse]

theorem map_congr_mem {α β : Type} (f g : α → β) :
    ∀ l : List α, (∀ a ∈ l, f a = g a) → l.map f = l.map g := by
  intro l
  induction l with
  | nil => intro _; rfl
  | cons x xs ih =>
    intro h
    rw [List.map_cons, List.map_cons, h x (by simp),
      ih (fun a ha => h a (by simp [ha]))]
theorem lexLe_antisymm : ∀ a b : List Char,
    lexLe a b = true → lexLe b a = true → a = b := by
  intro a
  induction a with
  | nil =>
    intro b _ hba
    cases b with
    | nil => rfl
    | cons y ys => exact absurd hba (by simp [lexLe])
  | cons x xs ih =>
    intro b hab hba
    cases b with
    | nil => exact absurd hab (by simp [lexLe])
    | cons y ys =>
      by_cases h1 : x.toNat < y.toNat
      · exfalso
        have hh : lexLe (y :: ys) (x :: xs) = false := by
          simp [lexLe, h1]
          omega
        rw [hh] at hba
        exact Bool.noConfusion hba
      · by_cases h2 : y.toNat < x.toNat
        · exfalso
          have hh : lexLe (x :: xs) (y :: ys) = false := by
            simp [lexLe, h1, h2]
          rw [hh] at hab
          exact Bool.noConfusion hab
        · have hxy : x = y := by
            have hn : x.toNat = y.toNat := by omega
            have := Char.ofNat_toNat x
            rw [hn, Char.ofNat_toNat y] at this
            exact this.symm
          have hxs : lexLe xs ys = true := by
            rw [show lexLe (x :: xs) (y :: ys) = lexLe xs ys by
              simp [lexLe, h1, h2]] at hab
            exact hab
          have hys : lexLe ys xs = true := by
            rw [show lexLe (y :: ys) (x :: xs) = lexLe ys xs by
              simp [lexLe, h1, h2]] at hba
            exact hba
          rw [hxy, ih ys hxs hys]

theorem sorted_key_eq {α : Type} (key : α → List Char) :
    ∀ l1 l2 : List α, List.Perm l1 l2 →
      List.Pairwise (fun a b => lexLe (key a) (key b) = true) l1 →
      List.Pairwise (fun a b => lexLe (key a) (key b) = true) l2 →
      (l1.map key).Nodup → l1 = l2 := by
  intro l1
  induction l1 with
  | nil =>
    intro l2 hp _ _ _
    exact List.Perm.nil_eq hp
  | cons a t1 ih =>
    intro l2 hp h1 h2 hnd
    cases l2 with
    | nil => exact absurd hp (by simp)
    | cons b t2 =>
      have hab : a = b := by
        have hbmem : b ∈ a :: t1 := hp.symm.subset (List.mem_cons_self b t2)
        rcases List.mem_cons.mp hbmem with h | hbt1
        · exact h.symm
        · have hamem : a ∈ b :: t2 := hp.subset (List.mem_cons_self a t1)
          rcases List.mem_cons.mp hamem with h | hat2
          · exact h
          · have h1' : lexLe (key a) (key b) = true :=
              (List.pairwise_cons.mp h1).1 b hbt1
            have h2' : lexLe (key b) (key a) = true :=
              (List.pairwise_cons.mp h2).1 a hat2
            have hk : key a = key b := lexLe_antisymm _ _ h1' h2'
            exfalso
            have hmm : key b ∈ t1.map key := List.mem_map.mpr ⟨b, hbt1, rfl⟩
            rw [List.map_cons] at hnd
            exact (List.nodup_cons.mp hnd).1 (hk ▸ hmm)
      subst hab
      have hp' : List.Perm t1 t2 := List.Perm.cons_inv hp
      rw [ih t2 hp' (List.pairwise_cons.mp h1).2 (List.pairwise_cons.mp h2).2
        (by rw [List.map_cons] at hnd; exact (List.nodup_cons.mp hnd).2)]


theorem keys_of_union (userEx sysEx : Bool)
    (userNames sysNames : List (List Char)) (home : List Char)
    (hnsU : ∀ n ∈ userNames, ('/' : Char) ∉ n)
    (hnsS : ∀ n ∈ sysNames, ('/' : Char) ∉ n) :
    (((if userEx then
          (userNames.filter (fun n => endsW (cs ".desktop") n)).map
            (fun n => (joinPath (get_user_applications_dir home) n, true))
        else []) ++
      (if sysEx then
          (sysNames.filter (fun n => endsW (cs ".desktop") n)).map
            (fun n => (joinPath get_system_applications_dir n, false))
        else [])).map sortKey) =
    ((if userEx then
        userNames.filter (fun n => endsW (cs ".desktop") n) else []) ++
     (if sysEx then
        sysNames.filter (fun n => endsW (cs ".desktop") n) else [])).map
      pyLower := by
  rw [List.map_append, List.map_append]
  have hU : ((if userEx then
        (userNames.filter (fun n => endsW (cs ".desktop") n)).map
          (fun n => (joinPath (get_user_applications_dir home) n, true))
      else []).map sortKey) =
      ((if userEx then
        userNames.filter (fun n => endsW (cs ".desktop") n) else []).map
        pyLower) := by
    cases userEx with
    | false => rfl
    | true =>
      show ((userNames.filter (fun n => endsW (cs ".desktop") n)).map
          (fun n => (joinPath (get_user_applications_dir home) n,
            true))).map sortKey =
        (userNames.filter (fun n => endsW (cs ".desktop") n)).map pyLower
      rw [List.map_map]
      refine map_congr_mem _ _ _ (fun n hn => ?_)
      have hmem : n ∈ userNames := List.mem_of_mem_filter hn
      show sortKey (joinPath (get_user_applications_dir home) n, true) =
        pyLower n
      rw [sortKey, baseName_joinPath _ _ (hnsU n hmem)]
  have hS : ((if sysEx then
        (sysNames.filter (fun n => endsW (cs ".desktop") n)).map
          (fun n => (joinPath get_system_applications_dir n, false))
      else []).map sortKey) =
      ((if sysEx then
        sysNames.filter (fun n => endsW (cs ".desktop") n) else []).map
        pyLower) := by
    cases sysEx with
    | false => rfl
    | true =>
      show ((sysNames.filter (fun n => endsW (cs ".desktop") n)).map
          (fun n => (joinPath get_system_applications_dir n,
            false))).map sortKey =
        (sysNames.filter (fun n => endsW (cs ".desktop") n)).map pyLower
      rw [List.map_map]
      refine map_congr_mem _ _ _ (fun n hn => ?_)
      have hmem : n ∈ sysNames := List.mem_of_mem_filter hn
      show sortKey (joinPath get_system_applications_dir n, false) =
        pyLower n
      rw [sortKey, baseName_joinPath _ _ (hnsS n hmem)]
  rw [hU, hS]

theorem union_perm_of_perms (userEx sysEx : Bool)
    (userNames userNames' sysNames sysNames' : List (List Char))
    (home : List Char)
    (hu : List.Perm userNames' userNames)
    (hs : List.Perm sysNames' sysNames) :
    List.Perm
      ((if userEx then
          (userNames'.filter (fun n => endsW (cs ".desktop") n)).map
            (fun n => (joinPath (get_user_applications_dir home) n, true))
        else []) ++
       (if sysEx then
          (sysNames'.filter (fun n => endsW (cs ".desktop") n)).map
            (fun n => (joinPath get_system_applications_dir n, false))
        else []))
      ((if userEx then
          (userNames.filter (fun n => endsW (cs ".desktop") n)).map
            (fun n => (joinPath (get_user_applications_dir home) n, true))
        else []) ++
       (if sysEx then
          (sysNames.filter (fun n => endsW (cs ".desktop") n)).map
            (fun n => (joinPath get_system_applications_dir n, false))
        else [])) := by
  refine List.Perm.append ?_ ?_
  · cases userEx with
    | false => exact List.Perm.refl _
    | true =>
      simp only [if_pos rfl]
      exact List.Perm.map _ (List.Perm.filter _ hu)
  · cases sysEx with
    | false => exact List.Perm.refl _
    | true =>
      simp only [if_pos rfl]
      exact List.Perm.map _ (List.Perm.filter _ hs)

/-- C7: `get_all_desktop_files` returns the union of the `.desktop`
files of the user applications directory (flagged `true` = writable)
and of the system applications directory (flagged `false`), sorted by
lowercased filename; the result does not depend on the order either
directory was traversed in (stated for listings whose lowercased
kept filenames are pairwise distinct), and a directory that does not
exist (`userEx`/`sysEx` false) contributes no entries. -/
theorem c7_enumerate_sorted_union (userEx sysEx : Bool)
    (userNames userNames' sysNames sysNames' : List (List Char))
    (home : List Char)
    (hu : List.Perm userNames' userNames)
    (hs : List.Perm sysNames' sysNames)
    (hnsU : ∀ n ∈ userNames, ('/' : Char) ∉ n)
    (hnsS : ∀ n ∈ sysNames, ('/' : Char) ∉ n)
    (hnd : (((if userEx then
        userNames.filter (fun n => endsW (cs ".desktop") n) else []) ++
      (if sysEx then
        sysNames.filter (fun n => endsW (cs ".desktop") n) else [])).map
        pyLower).Nodup) :
    List.Pairwise (fun a b => lexLe (sortKey a) (sortKey b) = true)
      (get_all_desktop_files userEx userNames sysEx sysNames home) ∧
    List.Perm (get_all_desktop_files userEx userNames sysEx sysNames home)
      ((if userEx then
          (userNames.filter (fun n => endsW (cs ".desktop") n)).map
            (fun n => (joinPath (get_user_applications_dir home) n, true))
        else []) ++
       (if sysEx then
          (sysNames.filter (fun n => endsW (cs ".desktop") n)).map
            (fun n => (joinPath get_system_applications_dir n, false))
        else [])) ∧
    get_all_desktop_files userEx userNames' sysEx sysNames' home =
      get_all_desktop_files userEx userNames sysEx sysNames home := by
  have hsort : List.Pairwise
      (fun a b => lexLe (sortKey a) (sortKey b) = true)
      (get_all_desktop_files userEx userNames sysEx sysNames home) :=
    sortFiles_sorted _
  have hsort' : List.Pairwise
      (fun a b => lexLe (sortKey a) (sortKey b) = true)
      (get_all_desktop_files userEx userNames' sysEx sysNames' home) :=
    sortFiles_sorted _
  have hperm : List.Perm
      (get_all_desktop_files userEx userNames sysEx sysNames home)
      ((if userEx then
          (userNames.filter (fun n => endsW (cs ".desktop") n)).map
            (fun n => (joinPath (get_user_applications_dir home) n, true))
        else []) ++
       (if sysEx then
          (sysNames.filter (fun n => endsW (cs ".desktop") n)).map
            (fun n => (joinPath get_system_applications_dir n, false))
        else [])) := sortFiles_perm _
  have hperm' : List.Perm
      (get_all_desktop_files userEx userNames' sysEx sysNames' home)
      ((if userEx then
          (userNames'.filter (fun n => endsW (cs ".desktop") n)).map
            (fun n => (joinPath (get_user_applications_dir home) n, true))
        else []) ++
       (if sysEx then
          (sysNames'.filter (fun n => endsW (cs ".desktop") n)).map
            (fun n => (joinPath get_system_applications_dir n, false))
        else [])) := sortFiles_perm _
  have hpp : List.Perm
      (get_all_desktop_files userEx userNames' sysEx sysNames' home)
      (get_all_desktop_files userEx userNames sysEx sysNames home) :=
    (hperm'.trans
      (union_perm_of_perms userEx sysEx userNames userNames'
        sysNames sysNames' home hu hs)).trans hperm.symm
  have hndout : ((get_all_desktop_files userEx userNames' sysEx
      sysNames' home).map sortKey).Nodup := by
    have h1 := List.Perm.map sortKey
      (hperm'.trans (union_perm_of_perms userEx sysEx userNames
        userNames' sysNames sysNames' home hu hs))
    rw [keys_of_union userEx sysEx userNames sysNames home hnsU hnsS]
      at h1
    exact (List.Perm.nodup_iff h1).mpr hnd
  exact ⟨hsort, hperm,
    sorted_key_eq sortKey _ _ hpp hsort' hsort hndout⟩

theorem c7_enumerate_sorted_union_witness :
    get_all_desktop_files true
        [cs "a.desktop", cs "b.desktop"] true [cs "c.desktop"]
        (cs "/home/u") =
      get_all_desktop_files true
        [cs "b.desktop", cs "a.desktop"] true [cs "c.desktop"]
        (cs "/home/u") ∧
    get_all_desktop_files true
        [cs "b.desktop", cs "a.desktop"] true [cs "c.desktop"]
        (cs "/home/u") =
      [(cs "/home/u/.local/share/applications/a.desktop", true),
       (cs "/home/u/.local/share/applications/b.desktop", true),
       (cs "/usr/share/applications/c.desktop", false)] :=
  ⟨(c7_enumerate_sorted_union true true
      [cs "b.desktop", cs "a.desktop"] [cs "a.desktop", cs "b.desktop"]
      [cs "c.desktop"] [cs "c.desktop"] (cs "/home/u")
      (by decide) (by decide) (by decide) (by decide) (by decide)).2.2,
   by decide⟩
